import Mathlib

/-!
Verification of the gtfs-sqlite repository (package gtfsconv).

The development shallowly embeds the parts of the program that the
verified properties are about:

* the batch import engine `importGTFS` of build.go (the revision that
  escapes values with the `#!` sentinel before turning a batch into a
  single bulk-insert statement), together with a model of how the SQLite
  store parses the values list of that statement;
* the allow-list `isGTFS` of util.go;
* the spatial derivation helpers `buildSpatialStops` / `buildSpatialShapes`
  of spatialite.go;
* the MTA-NYCT cleanup rule `cleanMTANYCT`, in both revisions present in
  the repository (the current one that repairs whole defect groups from a
  prefix query ordered by waypoint count, and the earlier one that joins
  defective trips against candidate shapes with `strong_match` /
  `weak_match` columns).

Go strings are modelled as `List Char`.  Strings coming out of the CSV
reader are always valid text in this model, so the `utf8.ValidString`
guards of the source, which can never fire here, are not modelled.
-/

namespace GtfsConv

/-- Go strings, modelled as lists of characters. -/
abbrev GoStr := List Char

/-- The single-quote character, spelled via its code point. -/
def sq : Char := Char.ofNat 39

/-- ASCII whitespace, as cut by `strings.TrimSpace`.  (The Unicode
space classes that `unicode.IsSpace` additionally accepts are left out
of the model; no property below depends on which exact characters count
as whitespace.) -/
def goIsSpace (c : Char) : Bool :=
  c = ' ' || c = '\t' || c = '\n' || c = '\x0b' || c = '\x0c' || c = '\r'

/-- `strings.TrimSpace`: drop leading and trailing whitespace. -/
def goTrimSpace (s : GoStr) : GoStr :=
  ((s.dropWhile goIsSpace).reverse.dropWhile goIsSpace).reverse

/-- The UTF-8 byte-order mark, as a code point. -/
def bomChar : Char := Char.ofNat 0xFEFF

/-- `strings.Trim(v, string([]byte{239, 187, 191}))`: drop leading and
trailing BOM characters from the first header field. -/
def goTrimBom (s : GoStr) : GoStr :=
  ((s.dropWhile (· = bomChar)).reverse.dropWhile (· = bomChar)).reverse

/-- `strings.Join(xs, sep)` (also the behaviour of SQL `group_concat`
over the visited rows). -/
def joinSep (sep : GoStr) : List GoStr → GoStr
  | [] => []
  | [x] => x
  | x :: y :: t => x ++ sep ++ joinSep sep (y :: t)

/-- `row := make([]string, len(header)); copy(row, r)`: truncate `r` to
`n` fields, padding with empty strings when `r` is shorter. -/
def goMakeCopy (n : Nat) (r : List GoStr) : List GoStr :=
  r.take n ++ List.replicate (n - r.length) []

/-- Whether a string contains the sentinel `#!` that `importGTFS` uses
to delimit field values inside the statement text. -/
def hasSentinel : GoStr → Bool
  | [] => false
  | [_] => false
  | c :: d :: rest => (c = '#' && d = '!') || hasSentinel (d :: rest)

/-- `strings.Replace(s, "'", "''", -1)`: double every single quote. -/
def goReplaceQuote : GoStr → GoStr
  | [] => []
  | c :: rest =>
    if c = sq then sq :: sq :: goReplaceQuote rest
    else c :: goReplaceQuote rest

/-- `strings.Replace(s, "#!", "'", -1)`: rewrite each (leftmost-first,
non-overlapping) occurrence of the sentinel into a single quote. -/
def goReplaceSentinel : GoStr → GoStr
  | [] => []
  | [c] => [c]
  | c :: d :: rest =>
    if c = '#' ∧ d = '!' then sq :: goReplaceSentinel rest
    else c :: goReplaceSentinel (d :: rest)

/-! ## The resource allow-list (util.go, `isGTFS`) -/

/-- `isGTFS` of util.go: `(valid, required)` for a resource name.  The
switch falls through from the required cases into the optional ones, so
`valid` is set for every listed name and `required` only for the first
six.  Note the last optional case is spelled `"feed_info.tx"` in the
source. -/
def isGTFS (name : String) : Bool × Bool :=
  if name = "agency.txt" ∨ name = "stops.txt" ∨ name = "routes.txt" ∨
     name = "trips.txt" ∨ name = "stop_times.txt" ∨ name = "calendar.txt" then
    (true, true)
  else if name = "calendar_dates.txt" ∨ name = "fare_attributes.txt" ∨
          name = "fare_rules.txt" ∨ name = "shapes.txt" ∨
          name = "frequencies.txt" ∨ name = "transfers.txt" ∨
          name = "feed_info.tx" then
    (true, false)
  else
    (false, false)

/-! ## The batch import engine (build.go, `importGTFS`)

A zip entry is modelled after the tabular resource the CSV reader
produces from it: a name, the header record, and the data records.  The
store is modelled by its tables (rows of text fields) and by the
`tablename` column of the `gtfs_metadata` checkpoint table. -/

/-- One resource of the feed, as read by `encoding/csv`. -/
structure ZipFile where
  name : String
  header : List GoStr
  rows : List (List GoStr)
deriving DecidableEq

/-- The SQLite store: named tables holding rows of text fields, plus the
`tablename` values of the rows of `gtfs_metadata`. -/
structure DB where
  tables : List (String × List (List GoStr))
  metadata : List String
deriving DecidableEq

/-- The rows of table `t`, when the table exists. -/
def lookupTable (db : DB) (t : String) : Option (List (List GoStr)) :=
  db.tables.lookup t

/-- `drop table if exists t; create table t (...);` followed by filling
`t` with `rows`: any previous table named `t` is replaced. -/
def setTable (db : DB) (t : String) (rows : List (List GoStr)) : DB :=
  { db with tables := (t, rows) :: db.tables.filter (fun p => p.1 ≠ t) }

/-- `countDBTable(db, "*", "gtfs_metadata where tablename = 't'")`. -/
def countMeta (db : DB) (t : String) : Nat :=
  (db.metadata.filter (· = t)).length

/-- `tablename := f.Name[:len(f.Name)-4]`. -/
def tblName (name : String) : String :=
  ⟨name.toList.take (name.toList.length - 4)⟩

/-- Header preparation: trim the BOM off the first field, then trim
whitespace from every field. -/
def trimHeader : List GoStr → List GoStr
  | [] => []
  | h :: t => goTrimSpace (goTrimBom h) :: t.map goTrimSpace

/-- Per-row preparation inside the batch loop: make/copy onto the header
width, then trim whitespace from every field. -/
def processRow (n : Nat) (r : List GoStr) : List GoStr :=
  (goMakeCopy n r).map goTrimSpace

/-- The sentinel the statement builder wraps field values in. -/
def sentinel : GoStr := ['#', '!']

/-- ``fmt.Sprintf(`(#!%s#!)`, strings.Join(row, `#!,#!`))``. -/
def encodeRow (row : List GoStr) : GoStr :=
  ['('] ++ sentinel ++ joinSep (sentinel ++ [','] ++ sentinel) row ++ sentinel ++ [')']

/-- The `cleanValuesStr` of `importGTFS`: join the batch's value tuples
with `", "`, double every single quote, then turn each sentinel into a
single quote. -/
def cleanValuesStr (values : List GoStr) : GoStr :=
  goReplaceSentinel (goReplaceQuote (joinSep [',', ' '] values))

/-! ### The store's view of the statement text

`db.Exec` hands the finished statement to SQLite, which parses the
values list back into rows of string literals (`''` being the escape
for a quote inside a literal) or rejects the statement.  The parse is
modelled as a character automaton over the values-list text. -/

/-- Parsing states for the values list of a bulk-insert statement. -/
inductive SqlSt where
  /-- expecting `(` opening the next tuple -/
  | expTuple (rows : List (List GoStr))
  /-- expecting the quote opening the next literal -/
  | expLit (rows : List (List GoStr)) (flds : List GoStr)
  /-- inside a literal -/
  | inLit (rows : List (List GoStr)) (flds : List GoStr) (cur : GoStr)
  /-- just read a quote while inside a literal -/
  | afterQ (rows : List (List GoStr)) (flds : List GoStr) (cur : GoStr)
  /-- just finished a tuple -/
  | afterTuple (rows : List (List GoStr))
  /-- read the `,` separating two tuples, expecting the space -/
  | afterComma (rows : List (List GoStr))
  /-- syntax error -/
  | bad
deriving DecidableEq

/-- One character of the values list. -/
def sqlStep (st : SqlSt) (c : Char) : SqlSt :=
  match st with
  | .expTuple rows => if c = '(' then .expLit rows [] else .bad
  | .expLit rows flds => if c = sq then .inLit rows flds [] else .bad
  | .inLit rows flds cur =>
    if c = sq then .afterQ rows flds cur else .inLit rows flds (cur ++ [c])
  | .afterQ rows flds cur =>
    if c = sq then .inLit rows flds (cur ++ [sq])
    else if c = ',' then .expLit rows (flds ++ [cur])
    else if c = ')' then .afterTuple (rows ++ [flds ++ [cur]])
    else .bad
  | .afterTuple rows => if c = ',' then .afterComma rows else .bad
  | .afterComma rows => if c = ' ' then .expTuple rows else .bad
  | .bad => .bad

/-- Parse a values list into its rows of field values, or fail. -/
def decodeValues (s : GoStr) : Option (List (List GoStr)) :=
  match s.foldl sqlStep (.expTuple []) with
  | .afterTuple rows => some rows
  | _ => none

/-- Import-stage errors (§7 kinds that the modelled paths can raise). -/
inductive ImpErr where
  /-- `failed to insert ...`: the store rejected the statement, or the
  decoded tuples do not have one value per named column -/
  | insertFailed
deriving DecidableEq

/-- `db.Exec("insert into t (cols) values " ++ values)`: the store
parses the cleaned values text; a malformed statement or a tuple whose
width differs from the `ncols` named columns is an error, otherwise the
tuples are appended to the table. -/
def execInsert (ncols : Nat) (table : List (List GoStr)) (values : List GoStr) :
    Except ImpErr (List (List GoStr)) :=
  match decodeValues (cleanValuesStr values) with
  | some rows =>
    if rows.all (fun r => r.length = ncols) then .ok (table ++ rows)
    else .error .insertFailed
  | none => .error .insertFailed

/-- `csvReadRowsLimit = 500` (the `SQLITE_MAX_COMPOUND_SELECT` ceiling). -/
def csvReadRowsLimit : Nat := 500

/-- Structural worker for `chunksOf`; `fuel` only bounds the recursion
depth and never runs out when it starts at the stream's length. -/
def chunksOfAux (fuel n : Nat) (l : List (List GoStr)) : List (List (List GoStr)) :=
  match fuel with
  | 0 => []
  | fuel + 1 =>
    if l = [] then []
    else if n = 0 then [l]
    else l.take n :: chunksOfAux fuel n (l.drop n)

/-- The batch reader: cut the row stream into chunks of at most `n`
rows; the final (possibly shorter) chunk is still emitted.  (`n = 0`
cannot happen with the source's constant; it degenerates to a single
chunk so that the function stays total.) -/
def chunksOf (n : Nat) (l : List (List GoStr)) : List (List (List GoStr)) :=
  chunksOfAux l.length n l

/-- Insert the prepared batches one statement at a time; the first
failing statement aborts the import of the resource. -/
def insertBatches (n : Nat) (table : List (List GoStr)) :
    List (List (List GoStr)) → Except ImpErr (List (List GoStr))
  | [] => .ok table
  | b :: bs =>
    match execInsert n table (b.map encodeRow) with
    | .ok table' => insertBatches n table' bs
    | .error e => .error e

/-- The body of `importGTFS` for one zip entry, generalised over the
batch size (the source fixes it to `csvReadRowsLimit`): skip entries
outside the allow-list, skip checkpointed tables, otherwise drop and
recreate the table, bulk-insert every batch, and checkpoint. -/
def importTableB (bs : Nat) (db : DB) (f : ZipFile) : Except ImpErr DB :=
  if (isGTFS f.name).1 = false then .ok db
  else
    let t := tblName f.name
    if countMeta db t > 0 then .ok db
    else
      let header := trimHeader f.header
      let n := header.length
      let db1 := setTable db t []
      match insertBatches n [] (chunksOf bs (f.rows.map (processRow n))) with
      | .ok rows => .ok { setTable db1 t rows with
                          metadata := (setTable db1 t rows).metadata ++ [t] }
      | .error e => .error e

/-- `importGTFS` on one zip entry, with the source's batch size. -/
def importTable (db : DB) (f : ZipFile) : Except ImpErr DB :=
  importTableB csvReadRowsLimit db f

instance {ε α : Type} [DecidableEq ε] [DecidableEq α] :
    DecidableEq (Except ε α) := fun x y =>
  match x, y with
  | .ok a, .ok b => decidable_of_iff (a = b) (by simp)
  | .error a, .error b => decidable_of_iff (a = b) (by simp)
  | .ok _, .error _ => .isFalse (fun hc => Except.noConfusion hc)
  | .error _, .ok _ => .isFalse (fun hc => Except.noConfusion hc)

/-- `importGTFS` over the whole archive. -/
def importGTFS (db : DB) : List ZipFile → Except ImpErr DB
  | [] => .ok db
  | f :: fs =>
    match importTable db f with
    | .ok db' => importGTFS db' fs
    | .error e => .error e

/-! ## Lemmas about the Go string primitives -/

theorem goReplaceQuote_append (x y : GoStr) :
    goReplaceQuote (x ++ y) = goReplaceQuote x ++ goReplaceQuote y := by
  induction x with
  | nil => rfl
  | cons c x ih =>
    by_cases h : c = sq <;> simp [goReplaceQuote, h, ih]

theorem goReplaceQuote_cons_ne {c : Char} (h : c ≠ sq) (l : GoStr) :
    goReplaceQuote (c :: l) = c :: goReplaceQuote l := by
  simp [goReplaceQuote, h]

theorem hasSentinel_cons_ne {c : Char} (h : c ≠ '#') (l : GoStr) :
    hasSentinel (c :: l) = hasSentinel l := by
  cases l with
  | nil => simp [hasSentinel]
  | cons d rest => simp [hasSentinel, h]

theorem hasSentinel_cons_of {c : Char} {l : GoStr} (h : hasSentinel l = true) :
    hasSentinel (c :: l) = true := by
  cases l with
  | nil => simp [hasSentinel] at h
  | cons d rest => simp [hasSentinel, h]

theorem hasSentinel_append_right {m : GoStr} (v : GoStr) (h : hasSentinel m = true) :
    hasSentinel (m ++ v) = true := by
  induction m with
  | nil => simp [hasSentinel] at h
  | cons c m ih =>
    cases m with
    | nil => simp [hasSentinel] at h
    | cons d rest =>
      simp only [hasSentinel, Bool.or_eq_true] at h
      have hgoal : hasSentinel (c :: d :: (rest ++ v)) = true := by
        rcases h with h | h
        · simp [hasSentinel, h]
        · have h2 := ih h
          rw [List.cons_append] at h2
          simp [hasSentinel, h2]
      simpa using hgoal

theorem hasSentinel_append_left (u : GoStr) {m : GoStr} (h : hasSentinel m = true) :
    hasSentinel (u ++ m) = true := by
  induction u with
  | nil => simpa
  | cons c u ih => simpa using hasSentinel_cons_of ih

theorem hasSentinel_infix {u m v : GoStr} (h : hasSentinel (u ++ m ++ v) = false) :
    hasSentinel m = false := by
  by_contra hm
  rw [Bool.not_eq_false] at hm
  have hT : hasSentinel (u ++ (m ++ v)) = true :=
    hasSentinel_append_left u (hasSentinel_append_right v hm)
  rw [List.append_assoc] at h
  simp [hT] at h

theorem goTrimSpace_decomp (f : GoStr) :
    ∃ u v, f = u ++ goTrimSpace f ++ v := by
  obtain ⟨u, hu⟩ := List.dropWhile_suffix (l := f) goIsSpace
  obtain ⟨w, hw⟩ := List.dropWhile_suffix (l := (f.dropWhile goIsSpace).reverse) goIsSpace
  refine ⟨u, w.reverse, ?_⟩
  have h1 : f.dropWhile goIsSpace
      = (goTrimSpace f) ++ w.reverse := by
    have := congrArg List.reverse hw
    simpa [goTrimSpace, List.reverse_append] using this.symm
  calc f = u ++ List.dropWhile goIsSpace f := hu.symm
    _ = u ++ (goTrimSpace f ++ w.reverse) := by rw [h1]
    _ = u ++ goTrimSpace f ++ w.reverse := by rw [List.append_assoc]

theorem hasSentinel_goTrimSpace {f : GoStr} (h : hasSentinel f = false) :
    hasSentinel (goTrimSpace f) = false := by
  obtain ⟨u, v, huv⟩ := goTrimSpace_decomp f
  rw [huv] at h
  exact hasSentinel_infix h

theorem hasSentinel_hash_cons {l : GoStr} (hl : hasSentinel l = false)
    (hh : l.head? ≠ some '!') : hasSentinel ('#' :: l) = false := by
  cases l with
  | nil => simp [hasSentinel]
  | cons d rest =>
    have hd : ¬ d = '!' := by simpa using hh
    simp [hasSentinel, hd, hl]

theorem goReplaceQuote_headq_ne_bang {f : GoStr} (h : f.head? ≠ some '!') :
    (goReplaceQuote f).head? ≠ some '!' := by
  cases f with
  | nil => simp [goReplaceQuote]
  | cons d f' =>
    by_cases hd : d = sq
    · simp [goReplaceQuote, hd]
      decide
    · simpa [goReplaceQuote, hd] using h

theorem hasSentinel_goReplaceQuote {f : GoStr} (h : hasSentinel f = false) :
    hasSentinel (goReplaceQuote f) = false := by
  induction f with
  | nil => simp [goReplaceQuote, hasSentinel]
  | cons c f ih =>
    have hsq : (sq : Char) ≠ '#' := by decide
    by_cases hc : c = sq
    · subst hc
      rw [hasSentinel_cons_ne hsq] at h
      have hq : goReplaceQuote (sq :: f) = sq :: sq :: goReplaceQuote f := by
        simp [goReplaceQuote]
      rw [hq, hasSentinel_cons_ne hsq, hasSentinel_cons_ne hsq]
      exact ih h
    · simp only [goReplaceQuote, if_neg hc]
      by_cases hhash : c = '#'
      · subst hhash
        have hhd : f.head? ≠ some '!' := by
          cases f with
          | nil => simp
          | cons d f' =>
            simp only [hasSentinel, Bool.or_eq_false_iff, Bool.and_eq_false_iff] at h
            rcases h.1 with h1 | h1
            · simp at h1
            · simpa using h1
        have hrest : hasSentinel f = false := by
          cases f with
          | nil => simp [hasSentinel]
          | cons d f' =>
            simp only [hasSentinel, Bool.or_eq_false_iff] at h
            exact h.2
        exact hasSentinel_hash_cons (ih hrest) (goReplaceQuote_headq_ne_bang hhd)
      · rw [hasSentinel_cons_ne hhash] at h ⊢
        exact ih h

theorem goReplaceSentinel_nil : goReplaceSentinel [] = [] := rfl

theorem goReplaceSentinel_cons_ne {c : Char} (h : c ≠ '#') (l : GoStr) :
    goReplaceSentinel (c :: l) = c :: goReplaceSentinel l := by
  cases l with
  | nil => rfl
  | cons d rest =>
    have : ¬ (c = '#' ∧ d = '!') := fun hc => h hc.1
    simp [goReplaceSentinel, this]

theorem goReplaceSentinel_hit (l : GoStr) :
    goReplaceSentinel ('#' :: '!' :: l) = sq :: goReplaceSentinel l := by
  simp [goReplaceSentinel]

theorem goReplaceSentinel_safe {x : GoStr} (hx : hasSentinel x = false) (y : GoStr) :
    goReplaceSentinel (x ++ '#' :: '!' :: y) = x ++ sq :: goReplaceSentinel y := by
  induction x with
  | nil => simpa using goReplaceSentinel_hit y
  | cons c x ih =>
    cases x with
    | nil =>
      by_cases hc : c = '#'
      · subst hc
        have : ¬ (('#' : Char) = '#' ∧ ('#' : Char) = '!') := by decide
        simpa [goReplaceSentinel, this] using goReplaceSentinel_hit y
      · rw [List.cons_append, List.nil_append,
          goReplaceSentinel_cons_ne hc, goReplaceSentinel_hit y]
        simp
    | cons d x' =>
      simp only [hasSentinel, Bool.or_eq_false_iff, Bool.and_eq_false_iff] at hx
      obtain ⟨hcd, hrest⟩ := hx
      have hne : ¬ (c = '#' ∧ d = '!') := by
        rintro ⟨h1, h2⟩
        rcases hcd with h | h
        · rw [h1] at h; simp at h
        · rw [h2] at h; simp at h
      have hstep : goReplaceSentinel (c :: d :: (x' ++ '#' :: '!' :: y))
          = c :: goReplaceSentinel (d :: (x' ++ '#' :: '!' :: y)) := by
        simp [goReplaceSentinel, hne]
      have ih2 := ih hrest
      rw [List.cons_append, List.cons_append, hstep]
      rw [List.cons_append] at ih2
      rw [ih2]
      simp

theorem goReplaceSentinel_id {x : GoStr} (hx : hasSentinel x = false) :
    goReplaceSentinel x = x := by
  induction x with
  | nil => rfl
  | cons c x ih =>
    cases x with
    | nil => rfl
    | cons d x' =>
      simp only [hasSentinel, Bool.or_eq_false_iff, Bool.and_eq_false_iff] at hx
      obtain ⟨hcd, hrest⟩ := hx
      have hne : ¬ (c = '#' ∧ d = '!') := by
        rintro ⟨h1, h2⟩
        rcases hcd with h | h
        · rw [h1] at h; simp at h
        · rw [h2] at h; simp at h
      rw [goReplaceSentinel]
      · simp only [if_neg hne]
        rw [ih hrest]

/-! ## Characterising the cleaned statement text

For a batch whose (already prepared) rows are non-empty and whose field
values do not contain the sentinel, the `cleanValuesStr` text is exactly
the well-formed SQL values list: each field a single-quoted literal with
quotes doubled, fields comma-separated inside parentheses, tuples
separated by `", "`. -/

/-- A field as it appears in the final statement: `'f'` with inner
quotes doubled. -/
def litTxt (f : GoStr) : GoStr := sq :: goReplaceQuote f ++ [sq]

/-- A row tuple as it appears in the final statement. -/
def rowTxt (row : List GoStr) : GoStr :=
  '(' :: joinSep [','] (row.map litTxt) ++ [')']

/-- The full values list of one bulk-insert statement. -/
def valsTxt (batch : List (List GoStr)) : GoStr :=
  joinSep [',', ' '] (batch.map rowTxt)

/-- The quote-doubled field values joined by the sentinel-quoted comma
separator (the text between the opening `(#!` and closing `#!)`). -/
def midTxt (row : List GoStr) : GoStr :=
  joinSep (sentinel ++ [','] ++ sentinel) (row.map goReplaceQuote)

theorem joinSep_cons_cons (sep x y : GoStr) (t : List GoStr) :
    joinSep sep (x :: y :: t) = x ++ sep ++ joinSep sep (y :: t) := rfl

theorem goReplaceQuote_joinSep (sep : GoStr) (l : List GoStr) :
    goReplaceQuote (joinSep sep l)
      = joinSep (goReplaceQuote sep) (l.map goReplaceQuote) := by
  induction l with
  | nil => rfl
  | cons x t ih =>
    cases t with
    | nil => rfl
    | cons y t' =>
      simp only [List.map_cons, joinSep_cons_cons, goReplaceQuote_append]
      rw [← List.map_cons goReplaceQuote y t', ih]

theorem goReplaceQuote_encodeRow (row : List GoStr) :
    goReplaceQuote (encodeRow row)
      = '(' :: (sentinel ++ (midTxt row ++ (sentinel ++ [')']))) := by
  have hsep : goReplaceQuote (sentinel ++ [','] ++ sentinel)
      = sentinel ++ [','] ++ sentinel := by decide
  simp only [encodeRow, goReplaceQuote_append, goReplaceQuote_joinSep, hsep, midTxt]
  have h1 : goReplaceQuote ['('] = ['('] := by decide
  have h2 : goReplaceQuote [')'] = [')'] := by decide
  have h3 : goReplaceQuote sentinel = sentinel := by decide
  rw [h1, h2, h3]
  simp [List.append_assoc]

theorem goReplaceSentinel_mid {row : List GoStr} (hrow : row ≠ [])
    (hclean : ∀ f ∈ row, hasSentinel f = false) (z : GoStr) :
    goReplaceSentinel (sentinel ++ (midTxt row ++ (sentinel ++ z)))
      = joinSep [','] (row.map litTxt) ++ goReplaceSentinel z := by
  induction row with
  | nil => exact absurd rfl hrow
  | cons f t ih =>
    have hf : hasSentinel (goReplaceQuote f) = false :=
      hasSentinel_goReplaceQuote (hclean f (by simp))
    cases t with
    | nil =>
      have h1 : sentinel ++ (midTxt [f] ++ (sentinel ++ z))
          = '#' :: '!' :: (goReplaceQuote f ++ '#' :: '!' :: z) := by
        simp [midTxt, joinSep, sentinel]
      rw [h1, goReplaceSentinel_hit, goReplaceSentinel_safe hf]
      simp [litTxt, joinSep]
    | cons g t' =>
      have hmid : midTxt (f :: g :: t')
          = goReplaceQuote f ++ (sentinel ++ [','] ++ sentinel)
              ++ midTxt (g :: t') := by
        simp [midTxt, joinSep_cons_cons]
      have h1 : sentinel ++ (midTxt (f :: g :: t') ++ (sentinel ++ z))
          = '#' :: '!' :: (goReplaceQuote f
              ++ '#' :: '!' :: (',' :: '#' :: '!' :: (midTxt (g :: t')
                  ++ (sentinel ++ z)))) := by
        rw [hmid]
        simp [sentinel, List.append_assoc]
      rw [h1, goReplaceSentinel_hit, goReplaceSentinel_safe hf]
      have hcomma : goReplaceSentinel (',' :: '#' :: '!' :: (midTxt (g :: t')
            ++ (sentinel ++ z)))
          = ',' :: goReplaceSentinel ('#' :: '!' :: (midTxt (g :: t')
              ++ (sentinel ++ z))) :=
        goReplaceSentinel_cons_ne (by decide) _
      have htail := ih (by simp) (fun x hx => hclean x (by simp [hx]))
      have htail' : goReplaceSentinel ('#' :: '!' :: (midTxt (g :: t')
            ++ (sentinel ++ z)))
          = joinSep [','] ((g :: t').map litTxt) ++ goReplaceSentinel z := by
        have : sentinel ++ (midTxt (g :: t') ++ (sentinel ++ z))
            = '#' :: '!' :: (midTxt (g :: t') ++ (sentinel ++ z)) := by
          simp [sentinel]
        rw [← this, htail]
      rw [hcomma, htail']
      simp [litTxt, joinSep_cons_cons, List.append_assoc]

theorem cleanValuesStr_spec {batch : List (List GoStr)} (hb : batch ≠ [])
    (hrows : ∀ r ∈ batch, r ≠ [])
    (hclean : ∀ r ∈ batch, ∀ f ∈ r, hasSentinel f = false) :
    cleanValuesStr (batch.map encodeRow) = valsTxt batch := by
  induction batch with
  | nil => exact absurd rfl hb
  | cons r t ih =>
    have hr : r ≠ [] := hrows r (by simp)
    have hrclean : ∀ f ∈ r, hasSentinel f = false :=
      fun f hf => hclean r (by simp) f hf
    cases t with
    | nil =>
      have h1 : cleanValuesStr [encodeRow r]
          = goReplaceSentinel (goReplaceQuote (encodeRow r)) := rfl
      simp only [List.map_cons, List.map_nil]
      rw [h1, goReplaceQuote_encodeRow,
        goReplaceSentinel_cons_ne (by decide : ('(' : Char) ≠ '#'),
        goReplaceSentinel_mid hr hrclean]
      rw [goReplaceSentinel_cons_ne (by decide : (')' : Char) ≠ '#'),
        goReplaceSentinel_nil]
      simp [valsTxt, rowTxt, joinSep]
    | cons r' t' =>
      have hstep : cleanValuesStr ((r :: r' :: t').map encodeRow)
          = goReplaceSentinel (goReplaceQuote (encodeRow r)
              ++ (',' :: ' ' :: goReplaceQuote
                    (joinSep [',', ' '] ((r' :: t').map encodeRow)))) := by
        simp only [cleanValuesStr, List.map_cons, joinSep_cons_cons,
          goReplaceQuote_append]
        have hcs : goReplaceQuote [',', ' '] = [',', ' '] := by decide
        rw [hcs]
        simp [List.append_assoc]
      rw [hstep, goReplaceQuote_encodeRow]
      have hassoc : ('(' :: (sentinel ++ (midTxt r ++ (sentinel ++ [')']))))
            ++ (',' :: ' ' :: goReplaceQuote
                  (joinSep [',', ' '] ((r' :: t').map encodeRow)))
          = '(' :: (sentinel ++ (midTxt r ++ (sentinel ++ (')' :: ',' :: ' ' ::
              goReplaceQuote (joinSep [',', ' '] ((r' :: t').map encodeRow)))))) := by
        simp [List.append_assoc]
      rw [hassoc,
        goReplaceSentinel_cons_ne (by decide : ('(' : Char) ≠ '#'),
        goReplaceSentinel_mid hr hrclean,
        goReplaceSentinel_cons_ne (by decide : (')' : Char) ≠ '#'),
        goReplaceSentinel_cons_ne (by decide : (',' : Char) ≠ '#'),
        goReplaceSentinel_cons_ne (by decide : (' ' : Char) ≠ '#')]
      have ih2 := ih (by simp) (fun x hx => hrows x (by simp [hx]))
        (fun x hx f hf => hclean x (by simp [hx]) f hf)
      have ih3 : goReplaceSentinel (goReplaceQuote
            (joinSep [',', ' '] ((r' :: t').map encodeRow)))
          = valsTxt (r' :: t') := ih2
      rw [ih3]
      simp [valsTxt, rowTxt, joinSep_cons_cons, List.append_assoc]

/-! ## The store accepts the characterised text -/

theorem sqlStep_expTuple_paren (R : List (List GoStr)) :
    sqlStep (.expTuple R) '(' = .expLit R [] := rfl

theorem sqlStep_expLit_sq (R : List (List GoStr)) (Fl : List GoStr) :
    sqlStep (.expLit R Fl) sq = .inLit R Fl [] := rfl

theorem sqlStep_inLit_sq (R : List (List GoStr)) (Fl : List GoStr) (cur : GoStr) :
    sqlStep (.inLit R Fl cur) sq = .afterQ R Fl cur := rfl

theorem sqlStep_inLit_ne {c : Char} (h : c ≠ sq) (R : List (List GoStr))
    (Fl : List GoStr) (cur : GoStr) :
    sqlStep (.inLit R Fl cur) c = .inLit R Fl (cur ++ [c]) := by
  simp [sqlStep, h]

theorem sqlStep_afterQ_sq (R : List (List GoStr)) (Fl : List GoStr) (cur : GoStr) :
    sqlStep (.afterQ R Fl cur) sq = .inLit R Fl (cur ++ [sq]) := rfl

theorem sqlStep_afterQ_comma (R : List (List GoStr)) (Fl : List GoStr) (cur : GoStr) :
    sqlStep (.afterQ R Fl cur) ',' = .expLit R (Fl ++ [cur]) := rfl

theorem sqlStep_afterQ_paren (R : List (List GoStr)) (Fl : List GoStr) (cur : GoStr) :
    sqlStep (.afterQ R Fl cur) ')' = .afterTuple (R ++ [Fl ++ [cur]]) := rfl

theorem sqlStep_afterTuple_comma (R : List (List GoStr)) :
    sqlStep (.afterTuple R) ',' = .afterComma R := rfl

theorem sqlStep_afterComma_space (R : List (List GoStr)) :
    sqlStep (.afterComma R) ' ' = .expTuple R := rfl

theorem sqlRun_lit (f : GoStr) (cur : GoStr) (R : List (List GoStr))
    (Fl : List GoStr) (rest : GoStr) :
    List.foldl sqlStep (.inLit R Fl cur) (goReplaceQuote f ++ sq :: rest)
      = List.foldl sqlStep (.afterQ R Fl (cur ++ f)) rest := by
  induction f generalizing cur with
  | nil =>
    simp only [goReplaceQuote, List.nil_append, List.foldl_cons,
      sqlStep_inLit_sq, List.append_nil]
  | cons c f ih =>
    by_cases hc : c = sq
    · subst hc
      have hq : goReplaceQuote (sq :: f) = sq :: sq :: goReplaceQuote f := by
        simp [goReplaceQuote]
      rw [hq, List.cons_append, List.cons_append, List.foldl_cons,
        List.foldl_cons, sqlStep_inLit_sq, sqlStep_afterQ_sq, ih]
      simp
    · rw [goReplaceQuote_cons_ne hc, List.cons_append, List.foldl_cons,
        sqlStep_inLit_ne hc, ih]
      simp

theorem sqlRun_tuple (row : List GoStr) (hrow : row ≠ [])
    (R : List (List GoStr)) (Fl : List GoStr) (rest : GoStr) :
    List.foldl sqlStep (.expLit R Fl)
        (joinSep [','] (row.map litTxt) ++ ')' :: rest)
      = List.foldl sqlStep (.afterTuple (R ++ [Fl ++ row])) rest := by
  induction row generalizing Fl with
  | nil => exact absurd rfl hrow
  | cons f t ih =>
    cases t with
    | nil =>
      have h1 : joinSep [','] ([f].map litTxt) ++ ')' :: rest
          = sq :: (goReplaceQuote f ++ sq :: (')' :: rest)) := by
        simp [joinSep, litTxt]
      rw [h1, List.foldl_cons, sqlStep_expLit_sq, sqlRun_lit,
        List.foldl_cons, sqlStep_afterQ_paren]
      simp
    | cons g t' =>
      have h1 : joinSep [','] ((f :: g :: t').map litTxt) ++ ')' :: rest
          = sq :: (goReplaceQuote f ++ sq :: (',' ::
              (joinSep [','] ((g :: t').map litTxt) ++ ')' :: rest))) := by
        simp [joinSep_cons_cons, litTxt, List.append_assoc]
      rw [h1, List.foldl_cons, sqlStep_expLit_sq, sqlRun_lit,
        List.foldl_cons, sqlStep_afterQ_comma, List.nil_append,
        ih (by simp) (Fl ++ [f])]
      simp

theorem sqlRun_vals (batch : List (List GoStr)) (hb : batch ≠ [])
    (hrows : ∀ r ∈ batch, r ≠ []) (R : List (List GoStr)) (rest : GoStr) :
    List.foldl sqlStep (.expTuple R) (valsTxt batch ++ rest)
      = List.foldl sqlStep (.afterTuple (R ++ batch)) rest := by
  induction batch generalizing R with
  | nil => exact absurd rfl hb
  | cons r t ih =>
    have hr : r ≠ [] := hrows r (by simp)
    cases t with
    | nil =>
      have h1 : valsTxt [r] ++ rest
          = '(' :: (joinSep [','] (r.map litTxt) ++ ')' :: rest) := by
        simp [valsTxt, rowTxt, joinSep]
      rw [h1, List.foldl_cons, sqlStep_expTuple_paren, sqlRun_tuple r hr]
      simp
    | cons r' t' =>
      have h1 : valsTxt (r :: r' :: t') ++ rest
          = '(' :: (joinSep [','] (r.map litTxt) ++ ')' ::
              (',' :: ' ' :: (valsTxt (r' :: t') ++ rest))) := by
        simp [valsTxt, rowTxt, joinSep_cons_cons, List.append_assoc]
      rw [h1, List.foldl_cons, sqlStep_expTuple_paren, sqlRun_tuple r hr,
        List.foldl_cons, List.foldl_cons, sqlStep_afterTuple_comma,
        sqlStep_afterComma_space]
      simp only [List.nil_append]
      rw [ih (by simp) (fun x hx => hrows x (by simp [hx])) (R ++ [r])]
      simp

theorem decodeValues_valsTxt {batch : List (List GoStr)} (hb : batch ≠ [])
    (hrows : ∀ r ∈ batch, r ≠ []) :
    decodeValues (valsTxt batch) = some batch := by
  have h := sqlRun_vals batch hb hrows [] []
  rw [List.append_nil] at h
  simp only [decodeValues, h, List.foldl, List.nil_append]

/-- The store accepts every statement the batch encoder produces from
sentinel-free, non-empty rows, and recovers exactly those rows. -/
theorem decode_clean_encode {batch : List (List GoStr)} (hb : batch ≠ [])
    (hrows : ∀ r ∈ batch, r ≠ [])
    (hclean : ∀ r ∈ batch, ∀ f ∈ r, hasSentinel f = false) :
    decodeValues (cleanValuesStr (batch.map encodeRow)) = some batch := by
  rw [cleanValuesStr_spec hb hrows hclean]
  exact decodeValues_valsTxt hb hrows

/-! ## The batched pipeline -/

theorem chunksOfAux_mono (n : Nat) :
    ∀ (fuel fuel' : Nat) (l : List (List GoStr)),
    l.length ≤ fuel → l.length ≤ fuel' →
    chunksOfAux fuel n l = chunksOfAux fuel' n l := by
  intro fuel
  induction fuel with
  | zero =>
    intro fuel' l h _
    have : l = [] := List.eq_nil_of_length_eq_zero (Nat.le_zero.mp h)
    subst this
    cases fuel' <;> simp [chunksOfAux]
  | succ fuel ih =>
    intro fuel' l h h'
    by_cases hl : l = []
    · subst hl
      cases fuel' <;> simp [chunksOfAux]
    · have hlen : 0 < l.length := List.length_pos.mpr hl
      cases fuel' with
      | zero => omega
      | succ fuel' =>
        by_cases hn : n = 0
        · simp [chunksOfAux, hl, hn]
        · simp only [chunksOfAux, if_neg hl, if_neg hn]
          have hdrop : (l.drop n).length ≤ fuel := by
            simp only [List.length_drop]
            omega
          have hdrop' : (l.drop n).length ≤ fuel' := by
            simp only [List.length_drop]
            omega
          rw [ih fuel' (l.drop n) hdrop hdrop']

theorem chunksOf_nil (n : Nat) : chunksOf n [] = [] := rfl

theorem chunksOf_cons {l : List (List GoStr)} (n : Nat) (hl : l ≠ [])
    (hn : n ≠ 0) : chunksOf n l = l.take n :: chunksOf n (l.drop n) := by
  have hlen : 0 < l.length := List.length_pos.mpr hl
  rw [chunksOf, chunksOf]
  cases hc : l.length with
  | zero => omega
  | succ m =>
    simp only [chunksOfAux, if_neg hl, if_neg hn]
    have h1 : (l.drop n).length ≤ m := by
      simp only [List.length_drop]
      omega
    rw [chunksOfAux_mono n m (l.drop n).length (l.drop n) h1 (Nat.le_refl _)]

theorem chunksOf_zero {l : List (List GoStr)} (hl : l ≠ []) :
    chunksOf 0 l = [l] := by
  have hlen : 0 < l.length := List.length_pos.mpr hl
  rw [chunksOf]
  cases hc : l.length with
  | zero => omega
  | succ m => simp [chunksOfAux, hl]

theorem chunksOf_flatten (n : Nat) (l : List (List GoStr)) :
    (chunksOf n l).flatten = l := by
  by_cases h : l = []
  · simp [h, chunksOf_nil]
  · by_cases hn : n = 0
    · subst hn
      simp [chunksOf_zero h]
    · rw [chunksOf_cons n h hn, List.flatten_cons, chunksOf_flatten n (l.drop n),
        List.take_append_drop]
termination_by l.length
decreasing_by
  simp only [List.length_drop]
  have hl : 0 < l.length := List.length_pos.mpr h
  omega

theorem chunksOf_ne_nil (n : Nat) (l : List (List GoStr)) :
    ∀ b ∈ chunksOf n l, b ≠ [] := by
  by_cases h : l = []
  · simp [h, chunksOf_nil]
  · by_cases hn : n = 0
    · subst hn
      simp [chunksOf_zero h, h]
    · rw [chunksOf_cons n h hn]
      intro b hb
      rw [List.mem_cons] at hb
      rcases hb with hb | hb
      · subst hb
        simp [List.take_eq_nil_iff, h, hn]
      · exact chunksOf_ne_nil n (l.drop n) b hb
termination_by l.length
decreasing_by
  simp only [List.length_drop]
  have hl : 0 < l.length := List.length_pos.mpr h
  omega

theorem chunksOf_length_le (n : Nat) (hn : n ≠ 0) (l : List (List GoStr)) :
    ∀ b ∈ chunksOf n l, b.length ≤ n := by
  by_cases h : l = []
  · simp [h, chunksOf_nil]
  · rw [chunksOf_cons n h hn]
    intro b hb
    rw [List.mem_cons] at hb
    rcases hb with hb | hb
    · subst hb
      simp [List.length_take]
    · exact chunksOf_length_le n hn (l.drop n) b hb
termination_by l.length
decreasing_by
  simp only [List.length_drop]
  have hl : 0 < l.length := List.length_pos.mpr h
  omega

theorem insertBatches_ok (n : Nat) :
    ∀ (batches : List (List (List GoStr))) (table : List (List GoStr)),
    (∀ b ∈ batches, b ≠ []) →
    (∀ b ∈ batches, ∀ r ∈ b, r ≠ [] ∧ r.length = n ∧
      ∀ f ∈ r, hasSentinel f = false) →
    insertBatches n table batches = .ok (table ++ batches.flatten) := by
  intro batches
  induction batches with
  | nil => intro table _ _; simp [insertBatches]
  | cons b bs ih =>
    intro table hne hrows
    have hb : b ≠ [] := hne b (by simp)
    have hbrows := hrows b (by simp)
    have hdec : decodeValues (cleanValuesStr (b.map encodeRow)) = some b :=
      decode_clean_encode hb (fun r hr => (hbrows r hr).1)
        (fun r hr => (hbrows r hr).2.2)
    have harity : b.all (fun r => r.length = n) = true := by
      rw [List.all_eq_true]
      intro r hr
      simpa using (hbrows r hr).2.1
    rw [insertBatches]
    rw [show execInsert n table (b.map encodeRow) = .ok (table ++ b) from by
      simp [execInsert, hdec, harity]]
    show insertBatches n (table ++ b) bs = _
    rw [ih (table ++ b) (fun x hx => hne x (by simp [hx]))
      (fun x hx => hrows x (by simp [hx]))]
    simp [List.flatten_cons, List.append_assoc]

theorem processRow_length (n : Nat) (r : List GoStr) :
    (processRow n r).length = n := by
  simp only [processRow, goMakeCopy, List.length_map, List.length_append,
    List.length_take, List.length_replicate]
  omega

theorem processRow_ne_nil {n : Nat} (hn : n ≠ 0) (r : List GoStr) :
    processRow n r ≠ [] := by
  intro h
  have := processRow_length n r
  rw [h] at this
  simp at this
  omega

theorem processRow_clean {r : List GoStr}
    (hr : ∀ f ∈ r, hasSentinel f = false) :
    ∀ (n : Nat), ∀ f ∈ processRow n r, hasSentinel f = false := by
  intro n f hf
  simp only [processRow, goMakeCopy, List.map_append, List.mem_append] at hf
  rcases hf with hf | hf
  · rw [List.mem_map] at hf
    obtain ⟨g, hg, rfl⟩ := hf
    exact hasSentinel_goTrimSpace (hr g (List.mem_of_mem_take hg))
  · rw [List.mem_map] at hf
    obtain ⟨g, hg, rfl⟩ := hf
    rw [List.eq_of_mem_replicate hg]
    rfl

/-- The store state a successful import of one recognised,
un-checkpointed resource produces. -/
def importResult (db : DB) (f : ZipFile) : DB :=
  let t := tblName f.name
  let n := (trimHeader f.header).length
  let db2 := setTable (setTable db t []) t (f.rows.map (processRow n))
  { db2 with metadata := db2.metadata ++ [t] }

theorem importTableB_ok {bs : Nat} (hbs : bs ≠ 0) (db : DB) (f : ZipFile)
    (hv : (isGTFS f.name).1 = true)
    (hchk : countMeta db (tblName f.name) = 0)
    (hhd : f.header ≠ [])
    (hclean : ∀ r ∈ f.rows, ∀ fld ∈ r, hasSentinel fld = false) :
    importTableB bs db f = .ok (importResult db f) := by
  have hn : (trimHeader f.header).length ≠ 0 := by
    cases hh : f.header with
    | nil => exact absurd hh hhd
    | cons a t => simp [trimHeader, hh]
  rw [importTableB]
  rw [hv]
  simp only [Bool.true_eq_false, if_false]
  rw [hchk]
  simp only [gt_iff_lt, Nat.lt_irrefl, if_false]
  set n := (trimHeader f.header).length with hndef
  have hins := insertBatches_ok n (chunksOf bs (f.rows.map (processRow n))) []
    (chunksOf_ne_nil bs _)
    (by
      intro b hb r hr
      have hrmem : r ∈ f.rows.map (processRow n) := by
        have := List.mem_flatten.mpr ⟨b, hb, hr⟩
        rwa [chunksOf_flatten] at this
      rw [List.mem_map] at hrmem
      obtain ⟨r0, hr0, rfl⟩ := hrmem
      exact ⟨processRow_ne_nil hn r0, processRow_length n r0,
        processRow_clean (hclean r0 hr0) n⟩)
  rw [hins, chunksOf_flatten]
  rfl

theorem lookupTable_importResult (db : DB) (f : ZipFile) :
    lookupTable (importResult db f) (tblName f.name)
      = some (f.rows.map (processRow (trimHeader f.header).length)) := by
  simp [importResult, lookupTable, setTable, List.lookup]

theorem processRow_getq_lt {n : Nat} {r : List GoStr} {i : Nat}
    (h1 : i < n) (h2 : i < r.length) :
    (processRow n r)[i]? = r[i]?.map goTrimSpace := by
  have ht : i < (r.take n).length := by
    simp only [List.length_take]
    omega
  simp only [processRow, goMakeCopy, List.getElem?_map,
    List.getElem?_append_left ht, List.getElem?_take_of_lt h1]

theorem processRow_getq_pad {n : Nat} {r : List GoStr} {i : Nat}
    (h1 : r.length ≤ i) (h2 : i < n) :
    (processRow n r)[i]? = some [] := by
  have htl : (r.take n).length = r.length := by
    simp only [List.length_take]
    omega
  have ht : (r.take n).length ≤ i := by omega
  simp only [processRow, goMakeCopy, List.getElem?_map,
    List.getElem?_append_right ht, htl]
  rw [List.getElem?_replicate_of_lt (by omega : i - r.length < n - r.length)]
  rfl

theorem importTable_skip_of_checkpoint (db : DB) (f : ZipFile)
    (h : countMeta db (tblName f.name) > 0) :
    importTable db f = .ok db := by
  rw [importTable, importTableB]
  by_cases hv : (isGTFS f.name).1 = false
  · rw [if_pos hv]
  · rw [if_neg hv]
    simp only [if_pos h]

/-- Claim C1 (amended): importing a recognised, un-checkpointed resource
with `n` header columns and `m` data rows, none of whose field values
contains the internal sentinel `#!`, succeeds; the resulting table has
exactly `m` rows; each stored row is its source row truncated/padded to
`n` fields with every field whitespace-trimmed, so fields are preserved
by position (quote and comma characters included, the statement text
escaping them correctly) and short rows carry empty-string trailing
fields. -/
theorem importTable_preserves_rows (db : DB) (f : ZipFile)
    (hv : (isGTFS f.name).1 = true)
    (hchk : countMeta db (tblName f.name) = 0)
    (hhd : f.header ≠ [])
    (hclean : ∀ r ∈ f.rows, ∀ fld ∈ r, hasSentinel fld = false) :
    importTable db f = .ok (importResult db f) ∧
    lookupTable (importResult db f) (tblName f.name)
      = some (f.rows.map (processRow (trimHeader f.header).length)) ∧
    (f.rows.map (processRow (trimHeader f.header).length)).length
      = f.rows.length ∧
    (∀ r : List GoStr, ∀ i : Nat, i < (trimHeader f.header).length →
      i < r.length →
      (processRow (trimHeader f.header).length r)[i]? = r[i]?.map goTrimSpace) ∧
    (∀ r : List GoStr, ∀ i : Nat, r.length ≤ i →
      i < (trimHeader f.header).length →
      (processRow (trimHeader f.header).length r)[i]? = some []) := by
  refine ⟨?_, lookupTable_importResult db f, by simp, ?_, ?_⟩
  · exact importTableB_ok (by decide) db f hv hchk hhd hclean
  · intro r i h1 h2
    exact processRow_getq_lt h1 h2
  · intro r i h1 h2
    exact processRow_getq_pad h1 h2

theorem importTable_preserves_rows_witness :
    importTable ⟨[], []⟩
        ⟨"stops.txt",
         ["stop_id".toList, "stop_name".toList],
         [["S1".toList, ('O' :: sq :: "Brien, Main St".toList)],
          ["S2".toList]]⟩
      = .ok (importResult ⟨[], []⟩
        ⟨"stops.txt",
         ["stop_id".toList, "stop_name".toList],
         [["S1".toList, ('O' :: sq :: "Brien, Main St".toList)],
          ["S2".toList]]⟩) ∧
    lookupTable (importResult ⟨[], []⟩
        ⟨"stops.txt",
         ["stop_id".toList, "stop_name".toList],
         [["S1".toList, ('O' :: sq :: "Brien, Main St".toList)],
          ["S2".toList]]⟩) "stops"
      = some [["S1".toList, ('O' :: sq :: "Brien, Main St".toList)],
              ["S2".toList, []]] := by
  have h := importTable_preserves_rows ⟨[], []⟩
    ⟨"stops.txt",
     ["stop_id".toList, "stop_name".toList],
     [["S1".toList, ('O' :: sq :: "Brien, Main St".toList)],
      ["S2".toList]]⟩
    (by decide) (by decide) (by decide) (by decide)
  refine ⟨h.1, ?_⟩
  rw [show tblName "stops.txt" = "stops" from by decide] at h
  rw [h.2.1]
  decide

/-- Claim C1, counterexample to the unamended statement: a field value
containing the sentinel `#!` is not escaped correctly — the cleaned
statement text for the single row `["a#!b"]` is the malformed values
list `('a'b')`, the store rejects it, and the import of the resource
fails instead of storing the row. -/
theorem importTable_sentinel_break :
    importTable ⟨[], []⟩
        ⟨"stops.txt", [['i', 'd']], [[['a', '#', '!', 'b']]]⟩
      = .error .insertFailed ∧
    cleanValuesStr ([[['a', '#', '!', 'b']]].map encodeRow)
      = ['(', sq, 'a', sq, 'b', sq, ')'] ∧
    decodeValues (cleanValuesStr ([[['a', '#', '!', 'b']]].map encodeRow))
      = none := by
  refine ⟨by decide, by decide, by decide⟩

/-- Claim C2: a checkpointed table is skipped entirely (the store is
returned unchanged), and an existing, possibly partial, un-checkpointed
table is dropped and fully recreated: whatever rows it held before, the
final table is exactly the import of the resource. -/
theorem importTable_checkpoint_resume (db : DB) (f : ZipFile) :
    (countMeta db (tblName f.name) > 0 → importTable db f = .ok db) ∧
    (∀ told, lookupTable db (tblName f.name) = some told →
      countMeta db (tblName f.name) = 0 → (isGTFS f.name).1 = true →
      f.header ≠ [] →
      (∀ r ∈ f.rows, ∀ fld ∈ r, hasSentinel fld = false) →
      importTable db f = .ok (importResult db f) ∧
      lookupTable (importResult db f) (tblName f.name)
        = some (f.rows.map (processRow (trimHeader f.header).length))) := by
  constructor
  · intro h
    exact importTable_skip_of_checkpoint db f h
  · intro _ _ hchk hv hhd hclean
    exact ⟨importTableB_ok (by decide) db f hv hchk hhd hclean,
      lookupTable_importResult db f⟩

theorem importTable_checkpoint_resume_witness :
    importTable ⟨[("stops", [[['o', 'l', 'd']]])], ["stops"]⟩
        ⟨"stops.txt", [['i', 'd']], [[['S', '1']]]⟩
      = .ok ⟨[("stops", [[['o', 'l', 'd']]])], ["stops"]⟩ ∧
    importTable ⟨[("stops", [[['o', 'l', 'd']]])], []⟩
        ⟨"stops.txt", [['i', 'd']], [[['S', '1']]]⟩
      = .ok (importResult ⟨[("stops", [[['o', 'l', 'd']]])], []⟩
          ⟨"stops.txt", [['i', 'd']], [[['S', '1']]]⟩) ∧
    lookupTable (importResult ⟨[("stops", [[['o', 'l', 'd']]])], []⟩
          ⟨"stops.txt", [['i', 'd']], [[['S', '1']]]⟩) "stops"
      = some [[['S', '1']]] := by
  have h1 := (importTable_checkpoint_resume
    ⟨[("stops", [[['o', 'l', 'd']]])], ["stops"]⟩
    ⟨"stops.txt", [['i', 'd']], [[['S', '1']]]⟩).1 (by decide)
  have h2 := (importTable_checkpoint_resume
    ⟨[("stops", [[['o', 'l', 'd']]])], []⟩
    ⟨"stops.txt", [['i', 'd']], [[['S', '1']]]⟩).2 [[['o', 'l', 'd']]]
    (by decide) (by decide) (by decide) (by decide) (by decide)
  exact ⟨h1, h2.1, by
    have := h2.2
    rw [show tblName "stops.txt" = "stops" from by decide] at this
    rw [this]
    decide⟩

/-- Claim C7: the final contents of an imported table are identical for
every positive batch size — the batched pipeline with its committed
final partial batch equals inserting the rows one at a time — and every
batch the 500-row reader produces holds at most 500 rows. -/
theorem importTable_batch_invariant (a b : Nat) (ha : a ≠ 0) (hb : b ≠ 0)
    (db : DB) (f : ZipFile)
    (hv : (isGTFS f.name).1 = true)
    (hchk : countMeta db (tblName f.name) = 0)
    (hhd : f.header ≠ [])
    (hclean : ∀ r ∈ f.rows, ∀ fld ∈ r, hasSentinel fld = false) :
    importTableB a db f = importTableB b db f ∧
    importTableB a db f = importTableB 1 db f ∧
    ∀ batch ∈ chunksOf csvReadRowsLimit
        (f.rows.map (processRow (trimHeader f.header).length)),
      batch.length ≤ csvReadRowsLimit := by
  refine ⟨?_, ?_, ?_⟩
  · rw [importTableB_ok ha db f hv hchk hhd hclean,
      importTableB_ok hb db f hv hchk hhd hclean]
  · rw [importTableB_ok ha db f hv hchk hhd hclean,
      importTableB_ok (by decide : (1 : Nat) ≠ 0) db f hv hchk hhd hclean]
  · exact chunksOf_length_le csvReadRowsLimit (by decide) _

theorem importTable_batch_invariant_witness :
    importTableB 500 ⟨[], []⟩
        ⟨"stops.txt", [['i', 'd']], [[['S', '1']], [['S', '2']], [['S', '3']]]⟩
      = importTableB 7 ⟨[], []⟩
        ⟨"stops.txt", [['i', 'd']], [[['S', '1']], [['S', '2']], [['S', '3']]]⟩ ∧
    importTableB 2 ⟨[], []⟩
        ⟨"stops.txt", [['i', 'd']], [[['S', '1']], [['S', '2']], [['S', '3']]]⟩
      = importTableB 1 ⟨[], []⟩
        ⟨"stops.txt", [['i', 'd']], [[['S', '1']], [['S', '2']], [['S', '3']]]⟩ := by
  have h1 := importTable_batch_invariant 500 7 (by decide) (by decide)
    ⟨[], []⟩ ⟨"stops.txt", [['i', 'd']], [[['S', '1']], [['S', '2']], [['S', '3']]]⟩
    (by decide) (by decide) (by decide) (by decide)
  have h2 := importTable_batch_invariant 2 7 (by decide) (by decide)
    ⟨[], []⟩ ⟨"stops.txt", [['i', 'd']], [[['S', '1']], [['S', '2']], [['S', '3']]]⟩
    (by decide) (by decide) (by decide) (by decide)
  exact ⟨h1.1, h2.2.1⟩

/-- Claim C9: a row with more fields than the header is silently
truncated — the import succeeds and stores exactly the first `n`
(trimmed) fields of that row, discarding the extras. -/
theorem importTable_truncates_long_rows (db : DB) (f : ZipFile)
    (hv : (isGTFS f.name).1 = true)
    (hchk : countMeta db (tblName f.name) = 0)
    (hhd : f.header ≠ [])
    (hclean : ∀ r ∈ f.rows, ∀ fld ∈ r, hasSentinel fld = false)
    (j : Nat) (r : List GoStr) (hj : f.rows[j]? = some r)
    (hlong : r.length > (trimHeader f.header).length) :
    ∃ tbl, importTable db f = .ok (importResult db f) ∧
      lookupTable (importResult db f) (tblName f.name) = some tbl ∧
      tbl[j]? = some ((r.take (trimHeader f.header).length).map goTrimSpace) := by
  refine ⟨f.rows.map (processRow (trimHeader f.header).length),
    importTableB_ok (by decide) db f hv hchk hhd hclean,
    lookupTable_importResult db f, ?_⟩
  rw [List.getElem?_map, hj]
  have hz : (trimHeader f.header).length - r.length = 0 := by omega
  simp [processRow, goMakeCopy, hz]

theorem importTable_truncates_long_rows_witness :
    ∃ tbl, importTable ⟨[], []⟩
        ⟨"stops.txt", [['i', 'd']], [[['S', '1'], ['e', 'x'], ['t', 'r', 'a']]]⟩
      = .ok (importResult ⟨[], []⟩
        ⟨"stops.txt", [['i', 'd']], [[['S', '1'], ['e', 'x'], ['t', 'r', 'a']]]⟩) ∧
      lookupTable (importResult ⟨[], []⟩
        ⟨"stops.txt", [['i', 'd']], [[['S', '1'], ['e', 'x'], ['t', 'r', 'a']]]⟩)
          (tblName "stops.txt") = some tbl ∧
      tbl[0]? = some [['S', '1']] := by
  have h := importTable_truncates_long_rows ⟨[], []⟩
    ⟨"stops.txt", [['i', 'd']], [[['S', '1'], ['e', 'x'], ['t', 'r', 'a']]]⟩
    (by decide) (by decide) (by decide) (by decide)
    0 [['S', '1'], ['e', 'x'], ['t', 'r', 'a']] (by decide) (by decide)
  obtain ⟨tbl, h1, h2, h3⟩ := h
  exact ⟨tbl, h1, h2, by rw [h3]; decide⟩

/-- Claim C10: the skip decision reads only the checkpoint table.  If a
checkpoint row for table `T` exists but the table itself does not, then
the run is a complete no-op and leaves the store still without `T`. -/
theorem importTable_skip_checkpoint_only (db : DB) (f : ZipFile)
    (hchk : countMeta db (tblName f.name) > 0)
    (habs : lookupTable db (tblName f.name) = none) :
    importTable db f = .ok db ∧ lookupTable db (tblName f.name) = none :=
  ⟨importTable_skip_of_checkpoint db f hchk, habs⟩

theorem importTable_skip_checkpoint_only_witness :
    importTable ⟨[], ["stops"]⟩ ⟨"stops.txt", [['i', 'd']], [[['S', '1']]]⟩
      = .ok ⟨[], ["stops"]⟩ ∧
    lookupTable ⟨[], ["stops"]⟩ "stops" = none := by
  have h := importTable_skip_checkpoint_only ⟨[], ["stops"]⟩
    ⟨"stops.txt", [['i', 'd']], [[['S', '1']]]⟩ (by decide) (by decide)
  rw [show tblName "stops.txt" = "stops" from by decide] at h
  exact h

/-- Claim C8, behaviour at the divergence: the source's allow-list
accepts the misspelled name `feed_info.tx` and therefore silently skips
the standard resource name `feed_info.txt`, while recognising the other
twelve kinds; any name outside the list is skipped without error. -/
theorem isGTFS_allow_list :
    isGTFS "feed_info.txt" = (false, false) ∧
    isGTFS "feed_info.tx" = (true, false) ∧
    isGTFS "agency.txt" = (true, true) ∧
    isGTFS "stops.txt" = (true, true) ∧
    isGTFS "routes.txt" = (true, true) ∧
    isGTFS "trips.txt" = (true, true) ∧
    isGTFS "stop_times.txt" = (true, true) ∧
    isGTFS "calendar.txt" = (true, true) ∧
    isGTFS "calendar_dates.txt" = (true, false) ∧
    isGTFS "fare_attributes.txt" = (true, false) ∧
    isGTFS "fare_rules.txt" = (true, false) ∧
    isGTFS "shapes.txt" = (true, false) ∧
    isGTFS "frequencies.txt" = (true, false) ∧
    isGTFS "transfers.txt" = (true, false) ∧
    (∀ db : DB, ∀ f : ZipFile, (isGTFS f.name).1 = false →
      importTable db f = .ok db) := by
  refine ⟨by decide, by decide, by decide, by decide, by decide, by decide,
    by decide, by decide, by decide, by decide, by decide, by decide,
    by decide, by decide, ?_⟩
  intro db f hv
  rw [importTable, importTableB, if_pos hv]

theorem isGTFS_allow_list_witness :
    importTable ⟨[], []⟩ ⟨"feed_info.txt", [['i', 'd']], [[['X']]]⟩
      = .ok ⟨[], []⟩ := by
  exact isGTFS_allow_list.2.2.2.2.2.2.2.2.2.2.2.2.2.2 ⟨[], []⟩
    ⟨"feed_info.txt", [['i', 'd']], [[['X']]]⟩ (by decide)

/-! ## The spatial derivation engine (spatialite.go)

The state carries the two base tables with the columns the builders
read, and the derived tables (`none` = table absent).  Geometry values
are the WKT text handed to `geomfromtext` together with the SRID
argument; `group_concat` concatenates the grouped rows in the order
they are stored in the base table (the populate query has no ORDER BY). -/

/-- A `stops` row (the columns `buildSpatialStops` reads). -/
structure StopRow where
  stop_id : GoStr
  stop_lat : GoStr
  stop_lon : GoStr
deriving DecidableEq

/-- A `shapes` row (the columns `buildSpatialShapes` reads). -/
structure ShapeRow where
  shape_id : GoStr
  shape_pt_lat : GoStr
  shape_pt_lon : GoStr
  shape_pt_sequence : GoStr
deriving DecidableEq

/-- A geometry value: SRID tag plus WKT text. -/
structure Geom where
  srid : Nat
  wkt : GoStr
deriving DecidableEq

/-- A row of a derived geometry table. -/
structure GeoRow where
  key : GoStr
  geom : Geom
deriving DecidableEq

/-- The store as the spatial builders see it. -/
structure SpatialDB where
  stops : List StopRow
  shapes : List ShapeRow
  stops_geo : Option (List GeoRow)
  shapes_geo : Option (List GeoRow)
deriving DecidableEq

/-- Distinct keys in first-occurrence order (SQL `distinct` /
`group by`; the group order does not matter for any property below). -/
def dedupAux (seen : List GoStr) : List GoStr → List GoStr
  | [] => []
  | k :: rest =>
    if k ∈ seen then dedupAux seen rest
    else k :: dedupAux (k :: seen) rest

/-- `count(distinct(col))` enumerator. -/
def dedupKeys (l : List GoStr) : List GoStr := dedupAux [] l

/-- `'POINT(' || stop_lon || ' ' || stop_lat || ')'`. -/
def pointWkt (s : StopRow) : GoStr :=
  "POINT(".toList ++ s.stop_lon ++ [' '] ++ s.stop_lat ++ [')']

/-- `insert into stops_geo select stop_id, geomfromtext(..., 4326)`:
one row per `stops` row. -/
def stopsGeoRows (stops : List StopRow) : List GeoRow :=
  stops.map (fun s => ⟨s.stop_id, ⟨4326, pointWkt s⟩⟩)

/-- One waypoint as `shape_pt_lon || ' ' || shape_pt_lat`. -/
def shapePt (r : ShapeRow) : GoStr :=
  r.shape_pt_lon ++ [' '] ++ r.shape_pt_lat

/-- The group's waypoints, in base-table row order (`group_concat`
without ORDER BY). -/
def shapePts (shapes : List ShapeRow) (k : GoStr) : List GoStr :=
  (shapes.filter (fun r => r.shape_id = k)).map shapePt

/-- `'LINESTRING(' || group_concat(...) || ')'`. -/
def lineWkt (pts : List GoStr) : GoStr :=
  "LINESTRING(".toList ++ joinSep [','] pts ++ [')']

/-- `insert into shapes_geo select shape_id, geomfromtext(..., 4326)
from shapes group by shape_id`: one row per distinct shape. -/
def shapesGeoRows (shapes : List ShapeRow) : List GeoRow :=
  (dedupKeys (shapes.map (·.shape_id))).map
    (fun k => ⟨k, ⟨4326, lineWkt (shapePts shapes k)⟩⟩)

/-- Spatial-stage errors (the `ConsistencyError` sanity check). -/
inductive SpErr where
  | consistency
deriving DecidableEq

/-- `buildSpatialStops`: count the base table; an existing derived
table with the expected count is left untouched; otherwise drop,
recreate, populate, and re-count, failing on a mismatch. -/
def buildSpatialStops (db : SpatialDB) : Except SpErr SpatialDB :=
  let numStops := db.stops.length
  let rebuild : Except SpErr SpatialDB :=
    let newG := stopsGeoRows db.stops
    if newG.length ≠ numStops then .error .consistency
    else .ok { db with stops_geo := some newG }
  match db.stops_geo with
  | some g => if g.length = numStops then .ok db else rebuild
  | none => rebuild

/-- `buildSpatialShapes`: same shape, with expected count
`count(distinct(shape_id))`. -/
def buildSpatialShapes (db : SpatialDB) : Except SpErr SpatialDB :=
  let numShapes := (dedupKeys (db.shapes.map (·.shape_id))).length
  let rebuild : Except SpErr SpatialDB :=
    let newG := shapesGeoRows db.shapes
    if newG.length ≠ numShapes then .error .consistency
    else .ok { db with shapes_geo := some newG }
  match db.shapes_geo with
  | some g => if g.length = numShapes then .ok db else rebuild
  | none => rebuild

theorem stopsGeoRows_length (stops : List StopRow) :
    (stopsGeoRows stops).length = stops.length := by
  simp [stopsGeoRows]

theorem shapesGeoRows_length (shapes : List ShapeRow) :
    (shapesGeoRows shapes).length
      = (dedupKeys (shapes.map (·.shape_id))).length := by
  simp [shapesGeoRows]

/-- Claim C3: for each derived geometry table, a fresh table (row count
equal to the base table's expected distinct-key count) is left
untouched, so a second consecutive run is a no-op; a stale or missing
table is dropped and fully rebuilt from the base table; and every
successful run ends with the derived table present and its row count
equal to the expected count. -/
theorem buildSpatial_fresh_stale (db : SpatialDB) :
    (∀ g, db.stops_geo = some g → g.length = db.stops.length →
      buildSpatialStops db = .ok db) ∧
    (∀ g, db.shapes_geo = some g →
      g.length = (dedupKeys (db.shapes.map (·.shape_id))).length →
      buildSpatialShapes db = .ok db) ∧
    (∀ db', buildSpatialStops db = .ok db' →
      ∃ g, db'.stops_geo = some g ∧ g.length = db'.stops.length) ∧
    (∀ db', buildSpatialShapes db = .ok db' →
      ∃ g, db'.shapes_geo = some g ∧
        g.length = (dedupKeys (db'.shapes.map (·.shape_id))).length) ∧
    (∀ g, db.stops_geo = some g → g.length ≠ db.stops.length →
      buildSpatialStops db
        = .ok { db with stops_geo := some (stopsGeoRows db.stops) }) ∧
    (∀ g, db.shapes_geo = some g →
      g.length ≠ (dedupKeys (db.shapes.map (·.shape_id))).length →
      buildSpatialShapes db
        = .ok { db with shapes_geo := some (shapesGeoRows db.shapes) }) := by
  refine ⟨?_, ?_, ?_, ?_, ?_, ?_⟩
  · intro g hg hlen
    rw [buildSpatialStops, hg]
    simp [hlen]
  · intro g hg hlen
    rw [buildSpatialShapes, hg]
    simp [hlen]
  · intro db' hok
    rcases hg : db.stops_geo with _ | g
    · have hbuild : buildSpatialStops db
          = .ok { db with stops_geo := some (stopsGeoRows db.stops) } := by
        rw [buildSpatialStops, hg]
        simp [stopsGeoRows_length]
      rw [hbuild] at hok
      cases hok
      exact ⟨_, rfl, stopsGeoRows_length db.stops⟩
    · by_cases hlen : g.length = db.stops.length
      · have hbuild : buildSpatialStops db = .ok db := by
          rw [buildSpatialStops, hg]
          simp [hlen]
        rw [hbuild] at hok
        cases hok
        exact ⟨g, hg, hlen⟩
      · have hbuild : buildSpatialStops db
            = .ok { db with stops_geo := some (stopsGeoRows db.stops) } := by
          rw [buildSpatialStops, hg]
          simp [hlen, stopsGeoRows_length]
        rw [hbuild] at hok
        cases hok
        exact ⟨_, rfl, stopsGeoRows_length db.stops⟩
  · intro db' hok
    rcases hg : db.shapes_geo with _ | g
    · have hbuild : buildSpatialShapes db
          = .ok { db with shapes_geo := some (shapesGeoRows db.shapes) } := by
        rw [buildSpatialShapes, hg]
        simp [shapesGeoRows_length]
      rw [hbuild] at hok
      cases hok
      exact ⟨_, rfl, shapesGeoRows_length db.shapes⟩
    · by_cases hlen : g.length = (dedupKeys (db.shapes.map (·.shape_id))).length
      · have hbuild : buildSpatialShapes db = .ok db := by
          rw [buildSpatialShapes, hg]
          simp [hlen]
        rw [hbuild] at hok
        cases hok
        exact ⟨g, hg, hlen⟩
      · have hbuild : buildSpatialShapes db
            = .ok { db with shapes_geo := some (shapesGeoRows db.shapes) } := by
          rw [buildSpatialShapes, hg]
          simp [hlen, shapesGeoRows_length]
        rw [hbuild] at hok
        cases hok
        exact ⟨_, rfl, shapesGeoRows_length db.shapes⟩
  · intro g hg hlen
    rw [buildSpatialStops, hg]
    simp [hlen, stopsGeoRows_length]
  · intro g hg hlen
    rw [buildSpatialShapes, hg]
    simp [hlen, shapesGeoRows_length]

theorem buildSpatial_fresh_stale_witness :
    buildSpatialStops ⟨[⟨"S1".toList, "40.1".toList, "-73.9".toList⟩],
        [], some [], none⟩
      = .ok ⟨[⟨"S1".toList, "40.1".toList, "-73.9".toList⟩], [],
          some (stopsGeoRows [⟨"S1".toList, "40.1".toList, "-73.9".toList⟩]),
          none⟩ ∧
    buildSpatialStops ⟨[⟨"S1".toList, "40.1".toList, "-73.9".toList⟩],
        [], some (stopsGeoRows [⟨"S1".toList, "40.1".toList, "-73.9".toList⟩]),
        none⟩
      = .ok ⟨[⟨"S1".toList, "40.1".toList, "-73.9".toList⟩], [],
          some (stopsGeoRows [⟨"S1".toList, "40.1".toList, "-73.9".toList⟩]),
          none⟩ := by
  constructor
  · have h := (buildSpatial_fresh_stale
      ⟨[⟨"S1".toList, "40.1".toList, "-73.9".toList⟩], [], some [], none⟩).2.2.2.2.1
      [] (by decide) (by decide)
    exact h
  · have h := (buildSpatial_fresh_stale
      ⟨[⟨"S1".toList, "40.1".toList, "-73.9".toList⟩], [],
        some (stopsGeoRows [⟨"S1".toList, "40.1".toList, "-73.9".toList⟩]),
        none⟩).1
      (stopsGeoRows [⟨"S1".toList, "40.1".toList, "-73.9".toList⟩])
      rfl (by decide)
    exact h

theorem mem_dedupAux (k : GoStr) :
    ∀ (l seen : List GoStr), k ∈ dedupAux seen l ↔ (k ∈ l ∧ k ∉ seen) := by
  intro l
  induction l with
  | nil => intro seen; simp [dedupAux]
  | cons a rest ih =>
    intro seen
    by_cases ha : a ∈ seen
    · rw [dedupAux, if_pos ha, ih]
      constructor
      · rintro ⟨h1, h2⟩
        exact ⟨by simp [h1], h2⟩
      · rintro ⟨h1, h2⟩
        rcases List.mem_cons.mp h1 with rfl | h1
        · exact absurd ha h2
        · exact ⟨h1, h2⟩
    · rw [dedupAux, if_neg ha, List.mem_cons, ih]
      constructor
      · rintro (rfl | ⟨h1, h2⟩)
        · exact ⟨by simp, ha⟩
        · refine ⟨by simp [h1], fun hk => h2 ?_⟩
          simp [hk]
      · rintro ⟨h1, h2⟩
        rcases List.mem_cons.mp h1 with rfl | h1
        · exact Or.inl rfl
        · by_cases hk : k = a
          · exact Or.inl hk
          · refine Or.inr ⟨h1, fun hs => ?_⟩
            rcases List.mem_cons.mp hs with h | h
            · exact hk h
            · exact h2 h

theorem mem_dedupKeys (k : GoStr) (l : List GoStr) :
    k ∈ dedupKeys l ↔ k ∈ l := by
  rw [dedupKeys, mem_dedupAux]
  simp

theorem nodup_dedupAux : ∀ (l seen : List GoStr), (dedupAux seen l).Nodup := by
  intro l
  induction l with
  | nil => intro seen; simp [dedupAux]
  | cons a rest ih =>
    intro seen
    by_cases ha : a ∈ seen
    · rw [dedupAux, if_pos ha]
      exact ih seen
    · rw [dedupAux, if_neg ha]
      refine List.nodup_cons.mpr ⟨fun hmem => ?_, ih (a :: seen)⟩
      have := (mem_dedupAux a rest (a :: seen)).mp hmem
      exact this.2 (by simp)

theorem nodup_dedupKeys (l : List GoStr) : (dedupKeys l).Nodup :=
  nodup_dedupAux l []

theorem nodup_filter_eq {l : List GoStr} (hn : l.Nodup) {k : GoStr}
    (hk : k ∈ l) : l.filter (fun x => x = k) = [k] := by
  induction l with
  | nil => simp at hk
  | cons a rest ih =>
    rw [List.nodup_cons] at hn
    by_cases hak : a = k
    · subst hak
      have hrest : rest.filter (fun x => x = a) = [] := by
        rw [List.filter_eq_nil_iff]
        intro x hx
        simp only [decide_eq_true_eq]
        intro hxa
        exact hn.1 (hxa ▸ hx)
      simp [List.filter_cons, hrest]
    · have hk' : k ∈ rest := by
        rcases List.mem_cons.mp hk with rfl | h
        · exact absurd rfl hak
        · exact h
      simp [List.filter_cons, hak, ih hn.2 hk']

theorem shapesGeoRows_filter_key (shapes : List ShapeRow) (k : GoStr)
    (hk : k ∈ shapes.map (·.shape_id)) :
    (shapesGeoRows shapes).filter (fun row => row.key = k)
      = [⟨k, ⟨4326, lineWkt (shapePts shapes k)⟩⟩] := by
  rw [shapesGeoRows, List.filter_map]
  have hcomp : ((fun row : GeoRow => decide (row.key = k)) ∘
      (fun k' => (⟨k', ⟨4326, lineWkt (shapePts shapes k')⟩⟩ : GeoRow)))
      = fun k' => decide (k' = k) := rfl
  rw [hcomp, nodup_filter_eq (nodup_dedupKeys _) ((mem_dedupKeys k _).mpr hk)]
  simp

/-- Modelled from the spec: the numeric value of the sequence column,
used only to state the ordering the spec prescribes. -/
def seqVal (s : GoStr) : Nat :=
  s.foldl (fun acc c => acc * 10 + (c.toNat - 48)) 0

/-- Follows the spec's words ("ordering waypoints by sequence before
building lines"): insertion into a sequence-sorted waypoint list. -/
def insertBySeq (x : ShapeRow) : List ShapeRow → List ShapeRow
  | [] => [x]
  | y :: ys =>
    if seqVal x.shape_pt_sequence ≤ seqVal y.shape_pt_sequence then
      x :: y :: ys
    else y :: insertBySeq x ys

/-- Follows the spec's words: sort a group's waypoints by ascending
sequence value. -/
def sortBySeq (rows : List ShapeRow) : List ShapeRow :=
  rows.foldr insertBySeq []

/-- Follows the spec's words: the shapes_geo contents the spec
describes, with each group's waypoints in ascending sequence order. -/
def shapesGeoRowsSeqOrdered (shapes : List ShapeRow) : List GeoRow :=
  (dedupKeys (shapes.map (·.shape_id))).map
    (fun k => ⟨k, ⟨4326, lineWkt ((sortBySeq (shapes.filter
        (fun r => r.shape_id = k))).map shapePt)⟩⟩)

/-- Claim C4 (amended): the rebuilt shapes_geo holds exactly one row
per shape, whose geometry is a line with one point per waypoint listed
in base-table row order (the populate query has no ORDER BY on the
sequence column; ascending sequence order is obtained only when the
rows are already stored in that order), each coordinate written as
(longitude, latitude); every stops_geo point is likewise
(longitude, latitude); and every constructed geometry carries SRID
4326. -/
theorem buildSpatial_geometry (db : SpatialDB) :
    (db.shapes_geo = none →
      buildSpatialShapes db
        = .ok { db with shapes_geo := some (shapesGeoRows db.shapes) }) ∧
    (db.stops_geo = none →
      buildSpatialStops db
        = .ok { db with stops_geo := some (stopsGeoRows db.stops) }) ∧
    (∀ k, k ∈ db.shapes.map (·.shape_id) →
      (shapesGeoRows db.shapes).filter (fun row => row.key = k)
        = [⟨k, ⟨4326, lineWkt (shapePts db.shapes k)⟩⟩]) ∧
    (∀ k, (shapePts db.shapes k).length
        = (db.shapes.filter (fun r => r.shape_id = k)).length) ∧
    (stopsGeoRows db.stops
      = db.stops.map (fun s => ⟨s.stop_id,
          ⟨4326, "POINT(".toList ++ s.stop_lon ++ [' ']
            ++ s.stop_lat ++ [')']⟩⟩)) ∧
    (∀ k, lineWkt (shapePts db.shapes k)
      = "LINESTRING(".toList ++ joinSep [',']
          ((db.shapes.filter (fun r => r.shape_id = k)).map
            (fun r => r.shape_pt_lon ++ [' '] ++ r.shape_pt_lat)) ++ [')']) := by
  refine ⟨?_, ?_, shapesGeoRows_filter_key db.shapes, ?_, rfl, fun k => rfl⟩
  · intro hg
    rw [buildSpatialShapes, hg]
    simp [shapesGeoRows_length]
  · intro hg
    rw [buildSpatialStops, hg]
    simp [stopsGeoRows_length]
  · intro k
    simp [shapePts]

theorem buildSpatial_geometry_witness :
    buildSpatialStops ⟨[⟨"S1".toList, "40.1".toList, "-73.9".toList⟩,
        ⟨"S2".toList, "40.2".toList, "-73.8".toList⟩], [], none, none⟩
      = .ok ⟨[⟨"S1".toList, "40.1".toList, "-73.9".toList⟩,
          ⟨"S2".toList, "40.2".toList, "-73.8".toList⟩], [], some
          [⟨"S1".toList, ⟨4326, "POINT(-73.9 40.1)".toList⟩⟩,
           ⟨"S2".toList, ⟨4326, "POINT(-73.8 40.2)".toList⟩⟩], none⟩ ∧
    (shapesGeoRows [⟨"A1".toList, "1".toList, "0".toList, "1".toList⟩,
        ⟨"A1".toList, "2".toList, "1".toList, "2".toList⟩,
        ⟨"A1".toList, "3".toList, "2".toList, "3".toList⟩]).filter
        (fun row => row.key = "A1".toList)
      = [⟨"A1".toList, ⟨4326, "LINESTRING(0 1,1 2,2 3)".toList⟩⟩] := by
  constructor
  · have h := (buildSpatial_geometry
      ⟨[⟨"S1".toList, "40.1".toList, "-73.9".toList⟩,
        ⟨"S2".toList, "40.2".toList, "-73.8".toList⟩], [], none, none⟩).2.1
      rfl
    rw [h]
    decide
  · have h := (buildSpatial_geometry
      ⟨[], [⟨"A1".toList, "1".toList, "0".toList, "1".toList⟩,
        ⟨"A1".toList, "2".toList, "1".toList, "2".toList⟩,
        ⟨"A1".toList, "3".toList, "2".toList, "3".toList⟩], none, none⟩).2.2.1
      "A1".toList (by decide)
    rw [h]
    decide

/-- Claim C4, counterexample to the unamended statement: the populate
query never reads the sequence column, so waypoints stored out of
sequence order yield a line in row order, not ascending-sequence
order.  For shape A1 with rows (sequence 2, then sequence 1) the built
line is LINESTRING(0 4,1 5) while the sequence-ordered line of the
claim would be LINESTRING(1 5,0 4). -/
theorem shapesGeo_not_seq_ordered :
    buildSpatialShapes ⟨[],
        [⟨"A1".toList, "4".toList, "0".toList, "2".toList⟩,
         ⟨"A1".toList, "5".toList, "1".toList, "1".toList⟩], none, none⟩
      = .ok ⟨[],
        [⟨"A1".toList, "4".toList, "0".toList, "2".toList⟩,
         ⟨"A1".toList, "5".toList, "1".toList, "1".toList⟩], none,
        some [⟨"A1".toList, ⟨4326, "LINESTRING(0 4,1 5)".toList⟩⟩]⟩ ∧
    shapesGeoRowsSeqOrdered
        [⟨"A1".toList, "4".toList, "0".toList, "2".toList⟩,
         ⟨"A1".toList, "5".toList, "1".toList, "1".toList⟩]
      = [⟨"A1".toList, ⟨4326, "LINESTRING(1 5,0 4)".toList⟩⟩] ∧
    shapesGeoRows
        [⟨"A1".toList, "4".toList, "0".toList, "2".toList⟩,
         ⟨"A1".toList, "5".toList, "1".toList, "1".toList⟩]
      ≠ shapesGeoRowsSeqOrdered
        [⟨"A1".toList, "4".toList, "0".toList, "2".toList⟩,
         ⟨"A1".toList, "5".toList, "1".toList, "1".toList⟩] := by
  refine ⟨by decide, by decide, by decide⟩

/-! ## The cleanup engine (cleanMTANYCT, current revision)

The rule reads the `trips` table (columns `trip_id`, `shape_id`), the
`shape_id` column of the `shapes` table, and the `cleaned` marker of the
`gtfs_metadata` row for `trips`.  Imported columns always hold strings,
so the defect signature `shape_id = '' or shape_id is null` is the empty
string.  Every update statement commits on its own (no transaction), so
the rule returns the store as mutated so far together with the error, if
any. -/

/-- A `trips` row, as the current cleanup revision reads it. -/
structure Trip where
  trip_id : GoStr
  shape_id : GoStr
deriving DecidableEq

/-- The store as the cleanup rule sees it. -/
structure CleanDB where
  trips : List Trip
  shapes : List GoStr
  cleanedTrips : Bool
deriving DecidableEq

/-- SQLite `substr(s, 21, 4)` (1-based start). -/
def substr21_4 (s : GoStr) : GoStr := (s.drop 20).take 4

/-- SQLite `substr(s, 21)`. -/
def substr21 (s : GoStr) : GoStr := s.drop 20

/-- SQLite `substr(s, 0, 5)`: position 0 lies one character before the
string, so only the first four characters are returned. -/
def substr0_5 (s : GoStr) : GoStr := s.take 4

/-- The defect signature `shape_id = '' or shape_id is null`. -/
def isDefect (t : Trip) : Bool := t.shape_id = []

/-- `like '%pat%'` (the ids involved are compared byte-wise here;
SQLite's ASCII case folding of LIKE plays no role for the properties
below). -/
def strContains (pat : GoStr) : GoStr → Bool
  | [] => pat.isEmpty
  | c :: rest => pat.isPrefixOf (c :: rest) || strContains pat rest

/-- `count(shape_id)` of one group of the candidate query. -/
def countShape (shapes : List GoStr) (k : GoStr) : Nat :=
  (shapes.filter (· = k)).length

/-- `select shape_id from shapes where shape_id like 'shp%' group by
shape_id order by count(shape_id) desc limit 1`: among the distinct
shape ids with prefix `shp`, the one backed by the most rows; the
embedding resolves SQLite's unspecified order among equal counts by
keeping the earliest candidate. `none` models the `ErrNoRows` scan
failure when no candidate exists. -/
def findSimilarShape (shapes : List GoStr) (shp : GoStr) : Option GoStr :=
  match dedupKeys (shapes.filter (fun s => shp.isPrefixOf s)) with
  | [] => none
  | c :: cs => some (cs.foldl (fun best k =>
      if countShape shapes k > countShape shapes best then k else best) c)

/-- Cleanup-stage errors. -/
inductive CleanErr where
  /-- no similar shape found for a defect group -/
  | matchErr
  /-- the final re-count still found defect rows -/
  | verifyErr
deriving DecidableEq

/-- The per-group repair loop of `cleanMTANYCT`, followed by the final
re-count and the `cleaned = 1` checkpoint update. -/
def cleanLoop (db : CleanDB) : List GoStr → CleanDB × Option CleanErr
  | [] =>
    let cs := (db.trips.filter isDefect).length
    if cs > 0 then (db, some .verifyErr)
    else ({ db with cleanedTrips := true }, none)
  | shp :: rest =>
    match findSimilarShape db.shapes shp with
    | none => (db, some .matchErr)
    | some simShp =>
      let trips' := db.trips.map (fun t =>
        if isDefect t ∧ strContains shp t.trip_id then
          { t with shape_id := simShp }
        else t)
      cleanLoop { db with trips := trips' } rest

/-- `cleanMTANYCT` (current revision): detect, group the defect rows by
`substr(trip_id, 21, 4)`, repair group by group, verify, record. -/
def cleanMTANYCT (db : CleanDB) : CleanDB × Option CleanErr :=
  let errorCount := (db.trips.filter isDefect).length
  if errorCount = 0 then (db, none)
  else
    cleanLoop db
      (dedupKeys ((db.trips.filter isDefect).map (fun t => substr21_4 t.trip_id)))

theorem cleanLoop_spec (db : CleanDB) (keys : List GoStr) :
    ((cleanLoop db keys).2 = none →
      ((cleanLoop db keys).1.trips.filter isDefect).length = 0) ∧
    ((cleanLoop db keys).2 ≠ none →
      (cleanLoop db keys).1.cleanedTrips = db.cleanedTrips) := by
  induction keys generalizing db with
  | nil =>
    by_cases hcs : ((db.trips.filter isDefect).length) > 0
    · rw [cleanLoop, if_pos hcs]
      exact ⟨fun h => absurd h (by simp), fun _ => rfl⟩
    · rw [cleanLoop, if_neg hcs]
      refine ⟨fun _ => ?_, fun h => absurd rfl h⟩
      show ((db.trips.filter isDefect).length) = 0
      omega
  | cons shp rest ih =>
    rw [cleanLoop]
    cases hfind : findSimilarShape db.shapes shp with
    | none => exact ⟨fun h => absurd h (by simp), fun _ => rfl⟩
    | some simShp => exact ih _

/-- Claim C5 (amended, positive part): a run that reports no error
ends with zero defect-signature rows, and a failing run never marks
the cleanup as recorded. -/
theorem cleanMTANYCT_converges (db : CleanDB) :
    ((cleanMTANYCT db).2 = none →
      (((cleanMTANYCT db).1.trips.filter isDefect).length = 0)) ∧
    ((cleanMTANYCT db).2 ≠ none →
      (cleanMTANYCT db).1.cleanedTrips = db.cleanedTrips) := by
  by_cases h : (db.trips.filter isDefect).length = 0
  · rw [cleanMTANYCT, if_pos h]
    exact ⟨fun _ => h, fun hne => absurd rfl hne⟩
  · rw [cleanMTANYCT, if_neg h]
    exact cleanLoop_spec db _

theorem cleanMTANYCT_converges_witness :
    ((cleanMTANYCT ⟨[⟨"T1".toList, "S".toList⟩], ["S".toList], false⟩).2
      = none) ∧
    (((cleanMTANYCT ⟨[⟨"T1".toList, "S".toList⟩],
        ["S".toList], false⟩).1.trips.filter isDefect).length = 0) :=
  ⟨by decide,
   (cleanMTANYCT_converges ⟨[⟨"T1".toList, "S".toList⟩],
      ["S".toList], false⟩).1 (by decide)⟩

/-- Claim C5, counterexample to the unamended statement: with two
defect groups of which only the first has a candidate shape, the run
fails with MatchError after the first group's repair has already been
committed — a partially repaired state persists in the store (one row
repaired, one still defective). -/
theorem cleanMTANYCT_partial_persists :
    cleanMTANYCT ⟨[⟨List.replicate 20 'x' ++ "ABCD".toList, []⟩,
        ⟨List.replicate 20 'x' ++ "WXYZ".toList, []⟩],
        ["ABCD1".toList], false⟩
      = (⟨[⟨List.replicate 20 'x' ++ "ABCD".toList, "ABCD1".toList⟩,
          ⟨List.replicate 20 'x' ++ "WXYZ".toList, []⟩],
          ["ABCD1".toList], false⟩, some .matchErr) ∧
    (⟨[⟨List.replicate 20 'x' ++ "ABCD".toList, "ABCD1".toList⟩,
        ⟨List.replicate 20 'x' ++ "WXYZ".toList, []⟩],
        ["ABCD1".toList], false⟩ : CleanDB)
      ≠ ⟨[⟨List.replicate 20 'x' ++ "ABCD".toList, []⟩,
          ⟨List.replicate 20 'x' ++ "WXYZ".toList, []⟩],
          ["ABCD1".toList], false⟩ ∧
    (([⟨List.replicate 20 'x' ++ "ABCD".toList, "ABCD1".toList⟩,
        ⟨List.replicate 20 'x' ++ "WXYZ".toList, []⟩] :
        List Trip).filter isDefect).length = 1 := by
  refine ⟨by decide, by decide, by decide⟩

/-! ## The cleanup engine, earlier revision (strong/weak match)

The earlier revision of `cleanMTANYCT` joins each defective trip (the
condition `shape_id in ('', null)` holds exactly for the empty string)
against every distinct candidate shape related by `strong_match`
(`substr(trip_id, 21) == shape_id`) or `weak_match`
(`substr(trip_id, 21, 4) == substr(shape_id, 0, 5)`, both four-character
prefixes), then patches the trip once per joined row, in row order.
`select distinct(shape_id)` is modelled as the ascending (byte-wise)
order an index scan produces.  A defect trip with no candidate joins to
a NULL candidate, whose scan into a Go string fails. -/

/-- A `trips` row with the `x_clean` flag column the rule adds. -/
structure TripX where
  trip_id : GoStr
  shape_id : GoStr
  x_clean : GoStr
deriving DecidableEq

/-- The store as the earlier cleanup revision sees it. -/
structure CleanDBX where
  trips : List TripX
  shapes : List GoStr
deriving DecidableEq

/-- Byte-wise lexicographic order on strings (SQLite BINARY collation). -/
def goStrLt : GoStr → GoStr → Bool
  | [], [] => false
  | [], _ :: _ => true
  | _ :: _, [] => false
  | c :: cs, d :: ds => if c < d then true else if d < c then false else goStrLt cs ds

/-- Insertion into an ascending list. -/
def insertSorted (x : GoStr) : List GoStr → List GoStr
  | [] => [x]
  | y :: ys => if goStrLt x y then x :: y :: ys else y :: insertSorted x ys

/-- Ascending sort. -/
def sortStrs (l : List GoStr) : List GoStr := l.foldr insertSorted []

/-- `select distinct(shape_id) from shapes`, in index-scan order. -/
def distinctShapes (shapes : List GoStr) : List GoStr :=
  sortStrs (dedupKeys shapes)

/-- `(fuzzy == s.shape_id)`. -/
def strongMatch (t : TripX) (s : GoStr) : Bool := substr21 t.trip_id = s

/-- `(fuzzy_wuzzy == wuzzy)`. -/
def weakMatch (t : TripX) (s : GoStr) : Bool :=
  substr21_4 t.trip_id = substr0_5 s

/-- `shape_id in ('', null)`: true exactly for the empty string. -/
def isDefectX (t : TripX) : Bool := t.shape_id = []

/-- The candidates the left join pairs with one defect trip. -/
def tripCands (shapes : List GoStr) (t : TripX) : List GoStr :=
  (distinctShapes shapes).filter (fun s => strongMatch t s || weakMatch t s)

/-- The join rows one defect trip contributes: one row per candidate,
or a single NULL-candidate row when there is none. -/
def rowsForX (shapes : List GoStr) (t : TripX) : List (TripX × Option GoStr) :=
  match tripCands shapes t with
  | [] => [(t, none)]
  | c :: cs => (c :: cs).map (fun s => (t, some s))

/-- The full result set of the match query. -/
def matchRowsOld (db : CleanDBX) : List (TripX × Option GoStr) :=
  (db.trips.filter isDefectX).flatMap (rowsForX db.shapes)

/-- Tag written for a row patched via a strong match. -/
def strongTag : GoStr := "shape_id_fix_strong_match".toList

/-- Tag written for a row patched via a weak match. -/
def weakTag : GoStr := "shape_id_fix_weak_match".toList

/-- The `"ERROR"` placeholder tag. -/
def errTag : GoStr := "ERROR".toList

/-- The `x_clean` value chosen for a joined row. -/
def xCleanFor (t : TripX) (s : GoStr) : GoStr :=
  if strongMatch t s then strongTag
  else if weakMatch t s then weakTag
  else errTag

/-- Errors of the earlier revision. -/
inductive CleanErrX where
  /-- scanning the NULL candidate of an unmatched trip into a string -/
  | scanNull
  /-- the `newShape == ""` patch sanity check -/
  | emptyShape
  /-- the final re-count still found defect rows -/
  | verify
  /-- the closing `update gtfs_metadata set cleaning = 1 where
  tablename = trips;` names a column `cleaning` and a column `trips`
  that do not exist, so recording success always errors -/
  | record
deriving DecidableEq

/-- `update trips set shape_id = ?, x_clean = ? where trip_id = ?`. -/
def updTrip (t : TripX) (s : GoStr) (tr : TripX) : TripX :=
  if tr.trip_id = t.trip_id then
    { tr with shape_id := s, x_clean := xCleanFor t s }
  else tr

/-- The scan-and-patch loop over the joined rows. -/
def patchMatches (db : CleanDBX) :
    List (TripX × Option GoStr) → CleanDBX × Option CleanErrX
  | [] => (db, none)
  | (t, cand) :: rest =>
    match cand with
    | none => (db, some .scanNull)
    | some s =>
      if s = [] then (db, some .emptyShape)
      else patchMatches { db with trips := db.trips.map (updTrip t s) } rest

/-- `cleanMTANYCT` (earlier revision): detect, match, patch row by row,
verify, and attempt to record success. -/
def cleanMTANYCTOld (db : CleanDBX) : CleanDBX × Option CleanErrX :=
  let c := (db.trips.filter isDefectX).length
  if c = 0 then (db, none)
  else
    match patchMatches db (matchRowsOld db) with
    | (db', none) =>
      if ((db'.trips.filter isDefectX).length) > 0 then (db', some .verify)
      else (db', some .record)
    | (db', some e) => (db', some e)

/-- The last candidate of a trip's join rows (the value of the last
patch executed for the trip). -/
def lastCand (shapes : List GoStr) (t : TripX) : GoStr :=
  (tripCands shapes t).getLastD []

theorem updTrip_trip_id (t : TripX) (s : GoStr) (tr : TripX) :
    (updTrip t s tr).trip_id = tr.trip_id := by
  rw [updTrip]
  by_cases h : tr.trip_id = t.trip_id <;> simp [h]

theorem updTrip_updTrip (t : TripX) (s1 s2 : GoStr) (tr : TripX) :
    updTrip t s2 (updTrip t s1 tr) = updTrip t s2 tr := by
  by_cases h : tr.trip_id = t.trip_id <;> simp [updTrip, h]

theorem updTrip_ne {t tr : TripX} (h : ¬ tr.trip_id = t.trip_id)
    (s : GoStr) : updTrip t s tr = tr := by
  simp [updTrip, h]

theorem patchMatches_append (db : CleanDBX)
    (l1 l2 : List (TripX × Option GoStr)) :
    patchMatches db (l1 ++ l2)
      = match patchMatches db l1 with
        | (db', none) => patchMatches db' l2
        | (db', some e) => (db', some e) := by
  induction l1 generalizing db with
  | nil => rfl
  | cons row rest ih =>
    obtain ⟨t, cand⟩ := row
    cases cand with
    | none => rfl
    | some s =>
      by_cases hs : s = []
      · simp [patchMatches, hs]
      · simp only [List.cons_append, patchMatches, if_neg hs]
        exact ih _

theorem patchMatches_cons_some (db : CleanDBX) (t : TripX) (s : GoStr)
    (rest : List (TripX × Option GoStr)) :
    patchMatches db ((t, some s) :: rest)
      = if s = [] then (db, some .emptyShape)
        else patchMatches { db with trips := db.trips.map (updTrip t s) } rest := rfl

theorem patchMatches_group (t : TripX) :
    ∀ (cands : List GoStr) (db : CleanDBX) (s : GoStr),
    cands.getLast? = some s → [] ∉ cands →
    patchMatches db (cands.map (fun c => (t, some c)))
      = ({ db with trips := db.trips.map (updTrip t s) }, none) := by
  intro cands
  induction cands with
  | nil => intro db s h _; simp at h
  | cons c rest ih =>
    intro db s hlast hnn
    have hc : ¬ c = [] := fun h => hnn (by simp [h])
    cases rest with
    | nil =>
      have hs : c = s := by
        have h1 : [c].getLast? = some c := rfl
        rw [h1] at hlast
        exact Option.some.inj hlast
      subst hs
      rw [List.map_cons, List.map_nil, patchMatches_cons_some, if_neg hc]
      rfl
    | cons c2 rest2 =>
      have hlast2 : (c2 :: rest2).getLast? = some s := by
        rwa [List.getLast?_cons_cons] at hlast
      have hnn2 : [] ∉ (c2 :: rest2) := fun h => hnn (List.mem_cons_of_mem c h)
      rw [List.map_cons, patchMatches_cons_some, if_neg hc,
        ih _ s hlast2 hnn2]
      have hcomp : (db.trips.map (updTrip t c)).map (updTrip t s)
          = db.trips.map (updTrip t s) := by
        rw [List.map_map]
        exact List.map_congr_left (fun tr _ => updTrip_updTrip t c s tr)
      show ({ db with trips := (db.trips.map (updTrip t c)).map (updTrip t s) },
          (none : Option CleanErrX)) = _
      rw [hcomp]

theorem getLast?_of_ne_nil {l : List GoStr} (h : l ≠ []) :
    l.getLast? = some (l.getLastD []) := by
  cases hx : l.getLast? with
  | none => exact absurd (List.getLast?_eq_none_iff.mp hx) h
  | some a => rw [List.getLastD_eq_getLast?, hx]; rfl

theorem rowsForX_of_ne {shapes : List GoStr} {t : TripX}
    (h : tripCands shapes t ≠ []) :
    rowsForX shapes t = (tripCands shapes t).map (fun s => (t, some s)) := by
  rw [rowsForX]
  cases hx : tripCands shapes t with
  | nil => exact absurd hx h
  | cons c cs => rfl

/-- Net effect of patching a list of defect groups in order. -/
def applyGroups (shapes : List GoStr) (ts : List TripX)
    (trl : List TripX) : List TripX :=
  ts.foldl (fun trl t => trl.map (updTrip t (lastCand shapes t))) trl

theorem patchMatches_flat (shapes : List GoStr) :
    ∀ (ts : List TripX) (db : CleanDBX), db.shapes = shapes →
    (∀ t ∈ ts, tripCands shapes t ≠ [] ∧ [] ∉ tripCands shapes t) →
    patchMatches db (ts.flatMap (rowsForX shapes))
      = ({ db with trips := applyGroups shapes ts db.trips }, none) := by
  intro ts
  induction ts with
  | nil => intro db _ _; rfl
  | cons t ts ih =>
    intro db hsh hall
    have hcne := (hall t (by simp)).1
    have hcnn := (hall t (by simp)).2
    rw [List.flatMap_cons, patchMatches_append, rowsForX_of_ne hcne,
      patchMatches_group t (tripCands shapes t) db (lastCand shapes t)
        (getLast?_of_ne_nil hcne) hcnn]
    show patchMatches
        { db with trips := db.trips.map (updTrip t (lastCand shapes t)) }
        (ts.flatMap (rowsForX shapes)) = _
    rw [ih { db with trips := db.trips.map (updTrip t (lastCand shapes t)) }
      hsh (fun x hx => hall x (by simp [hx]))]
    rfl

theorem foldl_map_comm (shapes : List GoStr) :
    ∀ (ts : List TripX) (trl : List TripX),
    applyGroups shapes ts trl
      = trl.map (fun tr =>
          ts.foldl (fun x t => updTrip t (lastCand shapes t) x) tr) := by
  intro ts
  induction ts with
  | nil => intro trl; simp [applyGroups]
  | cons t ts ih =>
    intro trl
    rw [show applyGroups shapes (t :: ts) trl
        = applyGroups shapes ts (trl.map (updTrip t (lastCand shapes t)))
      from rfl, ih, List.map_map]
    rfl

theorem foldUpd_ne (shapes : List GoStr) :
    ∀ (ts : List TripX) (tr : TripX),
    (∀ t ∈ ts, ¬ tr.trip_id = t.trip_id) →
    ts.foldl (fun x t => updTrip t (lastCand shapes t) x) tr = tr := by
  intro ts
  induction ts with
  | nil => intro tr _; rfl
  | cons t ts ih =>
    intro tr h
    rw [List.foldl_cons, updTrip_ne (h t (by simp))]
    exact ih tr (fun x hx => h x (by simp [hx]))

theorem foldUpd_mem (shapes : List GoStr) :
    ∀ (ts : List TripX) (tr t0 : TripX),
    (ts.map (·.trip_id)).Nodup → t0 ∈ ts → tr.trip_id = t0.trip_id →
    ts.foldl (fun x t => updTrip t (lastCand shapes t) x) tr
      = updTrip t0 (lastCand shapes t0) tr := by
  intro ts
  induction ts with
  | nil => intro tr t0 _ h _; simp at h
  | cons t ts ih =>
    intro tr t0 hnd hmem hid
    rw [List.map_cons, List.nodup_cons] at hnd
    rcases List.mem_cons.mp hmem with rfl | hmem
    · rw [List.foldl_cons]
      have hrest : ∀ t' ∈ ts,
          ¬ (updTrip t0 (lastCand shapes t0) tr).trip_id = t'.trip_id := by
        intro t' ht' heq
        rw [updTrip_trip_id, hid] at heq
        exact hnd.1 (heq ▸ List.mem_map_of_mem (·.trip_id) ht')
      exact foldUpd_ne shapes ts _ hrest
    · have hne : ¬ tr.trip_id = t.trip_id := by
        intro heq
        rw [hid] at heq
        exact hnd.1 (heq ▸ List.mem_map_of_mem (·.trip_id) hmem)
      rw [List.foldl_cons, updTrip_ne hne]
      exact ih tr t0 hnd.2 hmem hid

/-- Claim C6 (amended): the earlier revision's match query pairs each
defective trip with every candidate related by a strong or a weak
match, and the patch loop applies all of them in candidate order, so
the value that persists for a defect trip is its last candidate in the
distinct ascending candidate order — strong candidates receive no
preference over weak ones and no point-count tie-break exists — tagged
with that last candidate's own tier; a defect trip with no candidate in
either tier aborts the rule when the NULL candidate of its join row is
scanned. -/
theorem cleanMTANYCTOld_matching (db : CleanDBX) :
    ((db.trips.map (·.trip_id)).Nodup →
     (∀ t ∈ db.trips, isDefectX t →
       tripCands db.shapes t ≠ [] ∧ [] ∉ tripCands db.shapes t) →
     (cleanMTANYCTOld db).1.trips = db.trips.map (fun tr =>
        if isDefectX tr then
          { tr with shape_id := lastCand db.shapes tr,
                    x_clean := xCleanFor tr (lastCand db.shapes tr) }
        else tr)) ∧
    (∀ t, db.trips.filter isDefectX = [t] → tripCands db.shapes t = [] →
      cleanMTANYCTOld db = (db, some .scanNull)) ∧
    (∀ tr s, xCleanFor tr s
      = if strongMatch tr s then strongTag
        else if weakMatch tr s then weakTag else errTag) := by
  refine ⟨?_, ?_, fun tr s => rfl⟩
  · intro hids hcands
    by_cases hzero : (db.trips.filter isDefectX).length = 0
    · rw [show cleanMTANYCTOld db = (db, none) from by
        simp only [cleanMTANYCTOld]
        rw [if_pos hzero]]
      have hnone : ∀ tr ∈ db.trips, ¬ isDefectX tr = true := by
        intro tr htr hdef
        have hmem : tr ∈ db.trips.filter isDefectX :=
          List.mem_filter.mpr ⟨htr, hdef⟩
        rw [List.length_eq_zero] at hzero
        rw [hzero] at hmem
        simp at hmem
      show db.trips = _
      rw [List.map_congr_left (fun tr htr => by
        rw [if_neg (hnone tr htr)])]
      simp
    · have hfl := patchMatches_flat db.shapes (db.trips.filter isDefectX) db rfl
        (fun t ht => hcands t (List.mem_of_mem_filter ht)
          (by simpa using (List.mem_filter.mp ht).2))
      have hfl2 : patchMatches db (matchRowsOld db)
          = ({ db with trips := applyGroups db.shapes (db.trips.filter isDefectX) db.trips }, none) := hfl
      have hnd : ((db.trips.filter isDefectX).map (·.trip_id)).Nodup :=
        List.Nodup.sublist ((List.filter_sublist db.trips).map (·.trip_id)) hids
      have htrips : applyGroups db.shapes (db.trips.filter isDefectX) db.trips
          = db.trips.map (fun tr =>
            if isDefectX tr then
              { tr with shape_id := lastCand db.shapes tr,
                        x_clean := xCleanFor tr (lastCand db.shapes tr) }
            else tr) := by
        rw [foldl_map_comm]
        refine List.map_congr_left (fun tr htr => ?_)
        by_cases hdef : isDefectX tr = true
        · rw [if_pos hdef]
          have hmem : tr ∈ db.trips.filter isDefectX :=
            List.mem_filter.mpr ⟨htr, hdef⟩
          rw [foldUpd_mem db.shapes _ tr tr hnd hmem rfl]
          simp [updTrip]
        · rw [if_neg hdef]
          refine foldUpd_ne db.shapes _ tr (fun t ht heq => ?_)
          have ht' := List.mem_of_mem_filter ht
          have heqt : tr = t := List.inj_on_of_nodup_map hids htr ht' heq
          subst heqt
          exact hdef (by simpa using (List.mem_filter.mp ht).2)
      simp only [cleanMTANYCTOld, if_neg hzero, hfl2]
      by_cases hcnt : ((applyGroups db.shapes (db.trips.filter isDefectX)
          db.trips).filter isDefectX).length > 0
      · simp only [if_pos hcnt]
        exact htrips
      · simp only [if_neg hcnt]
        exact htrips
  · intro t hfilter hcands
    have hlen : ¬ (db.trips.filter isDefectX).length = 0 := by
      rw [hfilter]
      simp
    have hrows : matchRowsOld db = [(t, none)] := by
      show (db.trips.filter isDefectX).flatMap (rowsForX db.shapes)
        = [(t, none)]
      rw [hfilter, List.flatMap_cons]
      rw [show rowsForX db.shapes t = [(t, none)] from by
        rw [rowsForX, hcands]]
      rfl
    simp only [cleanMTANYCTOld, if_neg hlen, hrows]
    rfl

theorem cleanMTANYCTOld_matching_witness :
    (cleanMTANYCTOld ⟨[⟨List.replicate 20 'x' ++ "R..S95R".toList, [], []⟩],
        ["R..S95R".toList, "R..N95R".toList]⟩).1.trips
      = [⟨List.replicate 20 'x' ++ "R..S95R".toList,
          "R..S95R".toList, strongTag⟩] := by
  have h := (cleanMTANYCTOld_matching
    ⟨[⟨List.replicate 20 'x' ++ "R..S95R".toList, [], []⟩],
      ["R..S95R".toList, "R..N95R".toList]⟩).1 (by decide) (by decide)
  rw [h]
  decide

/-- Claim C6, counterexample to the unamended statement: fuzzy key
`AAAA` has the strong candidate `AAAA` and the weak candidate `AAAAX`;
the patch loop applies the strong candidate first and the weak one
last, so the trip ends repaired to the weak candidate `AAAAX`, tagged
weak — the strong candidate is not preferred. -/
theorem cleanMTANYCTOld_weak_overwrites_strong :
    (cleanMTANYCTOld ⟨[⟨List.replicate 20 'x' ++ "AAAA".toList, [], []⟩],
        ["AAAA".toList, "AAAAX".toList]⟩).1.trips
      = [⟨List.replicate 20 'x' ++ "AAAA".toList, "AAAAX".toList, weakTag⟩] ∧
    strongMatch ⟨List.replicate 20 'x' ++ "AAAA".toList, [], []⟩
      "AAAA".toList = true ∧
    weakMatch ⟨List.replicate 20 'x' ++ "AAAA".toList, [], []⟩
      "AAAAX".toList = true ∧
    ("AAAAX".toList : GoStr) ≠ "AAAA".toList ∧
    weakTag ≠ strongTag := by
  refine ⟨by decide, by decide, by decide, by decide, by decide⟩

end GtfsConv
